import Mathlib

/-!
# GopherAI: multi-index retrieval, prompt assembly and article synchronisation

A shallow embedding of

* `common/rag/rag.go`: `RAGQuery.RetrieveDocuments`, `BuildRAGPrompt`;
* `service/articlesync/sync.go`: `SyncArticles`, `IndexPendingArticles`;
* `model/*.go`: the three record types.

Go `int64` values are only compared, never computed with, so they are embedded as `Int`;
`uint8` is embedded as `Nat`.  Go strings are embedded as `String`.  Calls that can return an
error are embedded with an explicit outcome, and the outcomes of the external collaborators
(retrievers, relational store, vector backend) are inputs of the embedding.
-/

set_option autoImplicit false

namespace GopherAI

/-! ## `common/rag/rag.go` -/

/-- Document mirrors `schema.Document`: identifier, content and metadata. -/
structure Document where
  ID : String
  Content : String
  MetaData : List (String × String)
deriving DecidableEq, Repr

/-- Retriever mirrors one element of `RAGQuery.retrievers`: `Retrieve(ctx, query)` returns either
an error or a list of documents.  The list holds the documents the returned pointers refer to;
the converter installed by `NewRAGQuery` never returns a nil pointer. -/
abbrev Retriever := String → Except String (List Document)

/-- The first loop of `RetrieveDocuments` (rag.go 266-273): `allDocs` accumulates the documents
of every retriever that answers; a retriever that returns an error is skipped. -/
def collectDocs (retrievers : List Retriever) (query : String) : List Document :=
  retrievers.foldl
    (fun allDocs rtr =>
      match rtr query with
      | .error _ => allDocs
      | .ok docs => allDocs ++ docs)
    []

/-- The second loop of `RetrieveDocuments` (rag.go 280-290).  `seen` holds the keys of the
`seen` map, `uniqueDocs` is the slice built so far; the `break` is the early return. -/
def dedupLoop : List Document → List String → List Document → List Document
  | [], _, uniqueDocs => uniqueDocs
  | doc :: rest, seen, uniqueDocs =>
    if doc.Content ∉ seen ∧ doc.Content ≠ "" then
      if (uniqueDocs ++ [doc]).length ≥ 5 then uniqueDocs ++ [doc]
      else dedupLoop rest (doc.Content :: seen) (uniqueDocs ++ [doc])
    else dedupLoop rest seen uniqueDocs

/-- RetrieveDocuments (rag.go 262-293). -/
def RetrieveDocuments (retrievers : List Retriever) (query : String) :
    Except String (List Document) :=
  let allDocs := collectDocs retrievers query
  if allDocs.length = 0 then .error "no documents retrieved from any index"
  else .ok (dedupLoop allDocs [] [])

/-- Rendering of `fmt.Sprintf("[文档 %d]: %s\n\n", n, content)` for a non-negative `n`. -/
def sprintfDoc (n : Nat) (content : String) : String :=
  "[文档 " ++ toString n ++ "]: " ++ content ++ "\n\n"

/-- The loop of `BuildRAGPrompt` (rag.go 301-304): `i` is the loop index, `contextText` the
string built so far. -/
def contextLoop : List Document → Nat → String → String
  | [], _, contextText => contextText
  | doc :: rest, i, contextText =>
    contextLoop rest (i + 1) (contextText ++ sprintfDoc (i + 1) doc.Content)

/-- BuildRAGPrompt (rag.go 296-316). -/
def BuildRAGPrompt (query : String) (docs : List Document) : String :=
  if docs.length = 0 then query
  else
    let contextText := contextLoop docs 0 ""
    "基于以下参考文档回答用户的问题。如果文档中没有相关信息，请说明无法找到相关信息。\n\n参考文档：\n"
      ++ contextText ++ "\n\n用户问题：" ++ query ++ "\n\n请提供准确、完整的回答："

/-! ### The retrieval contract in the words of the specification -/

/-- The documents returned by each retriever, concatenated in retriever order; a failing
retriever contributes nothing. -/
def concatResults (retrievers : List Retriever) (query : String) : List Document :=
  (retrievers.map
    (fun rtr =>
      match rtr query with
      | .error _ => []
      | .ok docs => docs)).flatten

/-- Keep only the first occurrence of each distinct `Content` string. -/
def firstOccurrences (docs : List Document) : List Document :=
  docs.foldl
    (fun kept d => if ∃ k ∈ kept, k.Content = d.Content then kept else kept ++ [d])
    []

/-- The i-th document (counting from 1) rendered as the specification words it. -/
def renderDoc (p : Nat × Document) : String :=
  "[文档 " ++ toString p.1 ++ "]: " ++ p.2.Content ++ "\n\n"

/-! ## `model/*.go` -/

/-- PublishedArticle (model/published_article.go): a row of the external, read-only table. -/
structure PublishedArticle where
  ID : Int
  Title : String
  Content : String
  AuthorID : Int
  Status : Nat
  Ctime : Int
  Utime : Int
deriving DecidableEq, Repr

/-- SyncState (model/sync_state.go): the watermark row of one source table.  `UpdatedAt` is an
instant of an abstract clock; the zero value of `time.Time` is `0`. -/
structure SyncState where
  ID : Int
  TableName : String
  LastUtime : Int
  UpdatedAt : Nat
deriving DecidableEq, Repr

/-- SyncedArticle (model/synced_article.go): a row of the local replica.  `CreatedAt` and
`UpdatedAt` are instants of an abstract clock, the zero value of `time.Time` being `0`; no
statement of `sync.go` assigns them, the ORM maintains them on `Create` and `Save`. -/
structure SyncedArticle where
  ID : Int
  ExternalID : Int
  AuthorID : Int
  Title : String
  Content : String
  Status : Nat
  ExternalCtime : Int
  ExternalUtime : Int
  IsIndexed : Bool
  CreatedAt : Nat
  UpdatedAt : Nat
deriving DecidableEq, Repr

/-! ## The relational store as `sync.go` uses it

`mysql.DB` is a handle on two tables.  A table is the list of its rows in insertion order.
`First` with a `Where` clause is `List.find?`; `Create` and `Save` follow the ORM: `Create`
inserts and lets the store assign the primary key when it is zero, `Save` inserts when the
primary key is zero and otherwise overwrites the row that has this primary key.  The unique
indexes declared in the struct tags (`external_id`, `table_name`) and the primary keys are
enforced: an operation that would break one fails and changes nothing.

The ORM tracks time on the columns named `CreatedAt` and `UpdatedAt`: `Create` sets each of
them to the current time when it is zero, and an updating `Save` writes the current time into
`UpdatedAt`.  `now` is the reading of the clock; one call of `SyncArticles` or of
`IndexPendingArticles` takes one reading.  The sync-state row reaches `Save` with `UpdatedAt`
already assigned that reading (sync.go 123), so the time tracking leaves it as it is. -/

/-- The next auto-increment value: larger than every key in use, and at least 1. -/
def freshID (ids : List Int) : Int := ids.foldr max 0 + 1

/-- The time tracking of `Create`: a zero `CreatedAt` or `UpdatedAt` becomes the current
time. -/
def stampCreate (now : Nat) (a : SyncedArticle) : SyncedArticle :=
  { a with
    CreatedAt := if a.CreatedAt = 0 then now else a.CreatedAt
    UpdatedAt := if a.UpdatedAt = 0 then now else a.UpdatedAt }

/-- `mysql.DB.Create(&a)` on `synced_articles`; `none` is an error from the store. -/
def createArticle (now : Nat) (rows : List SyncedArticle) (a : SyncedArticle) :
    Option (List SyncedArticle) :=
  if ∃ r ∈ rows, r.ExternalID = a.ExternalID then none
  else if a.ID = 0 then
    some (rows ++ [{ stampCreate now a with ID := freshID (rows.map (·.ID)) }])
  else if ∃ r ∈ rows, r.ID = a.ID then none
  else some (rows ++ [stampCreate now a])

/-- `mysql.DB.Save(&a)` on `synced_articles`; `none` is an error from the store.  The row that
is overwritten receives the current time in `UpdatedAt`. -/
def saveArticle (now : Nat) (rows : List SyncedArticle) (a : SyncedArticle) :
    Option (List SyncedArticle) :=
  if a.ID = 0 then createArticle now rows a
  else if ∃ r ∈ rows, r.ID = a.ID then
    if ∃ r ∈ rows, r.ID ≠ a.ID ∧ r.ExternalID = a.ExternalID then none
    else some (rows.map (fun r => if r.ID = a.ID then { a with UpdatedAt := now } else r))
  else createArticle now rows a

/-- `mysql.DB.Create(&s)` on the sync-state table. -/
def createState (rows : List SyncState) (s : SyncState) : Option (List SyncState) :=
  if ∃ r ∈ rows, r.TableName = s.TableName then none
  else if s.ID = 0 then some (rows ++ [{ s with ID := freshID (rows.map (·.ID)) }])
  else if ∃ r ∈ rows, r.ID = s.ID then none
  else some (rows ++ [s])

/-- `mysql.DB.Save(&s)` on the sync-state table. -/
def saveState (rows : List SyncState) (s : SyncState) : Option (List SyncState) :=
  if s.ID = 0 then createState rows s
  else if ∃ r ∈ rows, r.ID = s.ID then
    if ∃ r ∈ rows, r.ID ≠ s.ID ∧ r.TableName = s.TableName then none
    else some (rows.map (fun r => if r.ID = s.ID then s else r))
  else createState rows s

/-- The local database: the replica table and the sync-state table. -/
structure DB where
  articles : List SyncedArticle
  states : List SyncState
deriving DecidableEq, Repr

/-- Errors injected by the environment, one field per fallible call of `sync.go`: `true` means
that the call returns an error (and has no effect).  The per-record fields are indexed by the
record the loop is processing. -/
structure Faults where
  /-- line 51: reading the sync state fails for a reason other than a missing row -/
  readState : Bool
  /-- lines 62-65: the query on the external database fails -/
  queryExternal : Bool
  /-- line 82: looking up the local article fails for a reason other than a missing row -/
  lookup : PublishedArticle → Bool
  /-- line 96: `Create(&localArticle)` fails -/
  create : PublishedArticle → Bool
  /-- line 108: `Save(&localArticle)` fails -/
  update : PublishedArticle → Bool
  /-- line 124: `Save(&syncState)` fails -/
  saveState : Bool
  /-- line 141: the query for pending articles fails -/
  queryPending : Bool
  /-- line 159: `rag.NewRAGIndexer` fails -/
  newIndexer : SyncedArticle → Bool
  /-- line 167: `indexer.IndexContent` fails -/
  indexContent : SyncedArticle → Bool
  /-- line 174: `Save(&article)` after indexing fails -/
  markIndexed : SyncedArticle → Bool

/-- An environment in which no call fails. -/
def Faults.healthy : Faults :=
  { readState := false, queryExternal := false, lookup := fun _ => false,
    create := fun _ => false, update := fun _ => false, saveState := false,
    queryPending := false, newIndexer := fun _ => false, indexContent := fun _ => false,
    markIndexed := fun _ => false }

/-- No call on the relational stores (local or external) fails. -/
def Faults.storeOK (F : Faults) : Prop :=
  F.readState = false ∧ F.queryExternal = false ∧ (∀ e, F.lookup e = false) ∧
  (∀ e, F.create e = false) ∧ (∀ e, F.update e = false) ∧ F.saveState = false ∧
  F.queryPending = false ∧ ∀ a, F.markIndexed a = false

/-- No call on the vector backend fails. -/
def Faults.backendOK (F : Faults) : Prop :=
  (∀ a, F.newIndexer a = false) ∧ ∀ a, F.indexContent a = false

/-! ## `service/articlesync/sync.go` -/

/-- The constant `tableName`. -/
def tableName : String := "published_articles"

/-- The constant `statusPublished`. -/
def statusPublished : Nat := 2

/-- Step 1 of `SyncArticles` (sync.go 50-58): the stored sync state, or a new one with
`LastUtime = 0` when the read returns an error. -/
def readSyncState (F : Faults) (states : List SyncState) : SyncState :=
  match (if F.readState then none else states.find? (fun s => s.TableName = tableName)) with
  | some s => s
  | none => { ID := 0, TableName := tableName, LastUtime := 0, UpdatedAt := 0 }

/-- Step 2 of `SyncArticles` (sync.go 62-65): the rows with `status = 2 AND utime > lastUtime`,
`ORDER BY utime ASC`; rows with equal `utime` keep their table order. -/
def queryPublished (ext : List PublishedArticle) (lastUtime : Int) : List PublishedArticle :=
  (ext.filter (fun a => a.Status = statusPublished ∧ a.Utime > lastUtime)).insertionSort
    (fun a b => a.Utime ≤ b.Utime)

/-- The body of the loop of step 3 up to the store call (sync.go 81-113) for one external
article; `none` is the `continue` taken when `Create` or `Save` returns an error. -/
def upsertArticle (F : Faults) (now : Nat) (rows : List SyncedArticle)
    (extArticle : PublishedArticle) : Option (List SyncedArticle) :=
  match (if F.lookup extArticle then none
         else rows.find? (fun r => r.ExternalID = extArticle.ID)) with
  | none =>
    if F.create extArticle then none
    else createArticle now rows
      { ID := 0, ExternalID := extArticle.ID, AuthorID := extArticle.AuthorID,
        Title := extArticle.Title, Content := extArticle.Content,
        Status := extArticle.Status, ExternalCtime := extArticle.Ctime,
        ExternalUtime := extArticle.Utime, IsIndexed := false, CreatedAt := 0, UpdatedAt := 0 }
  | some localArticle =>
    if F.update extArticle then none
    else saveArticle now rows
      { localArticle with
        Title := extArticle.Title, Content := extArticle.Content,
        Status := extArticle.Status, ExternalUtime := extArticle.Utime,
        IsIndexed := false }

/-- The loop of step 3 (sync.go 78-118): the replica rows and the running `maxUtime`. -/
def upsertLoop (F : Faults) (now : Nat) :
    List PublishedArticle → List SyncedArticle → Int → List SyncedArticle × Int
  | [], rows, maxUtime => (rows, maxUtime)
  | extArticle :: rest, rows, maxUtime =>
    match upsertArticle F now rows extArticle with
    | none => upsertLoop F now rest rows maxUtime
    | some rows' =>
      upsertLoop F now rest rows'
        (if extArticle.Utime > maxUtime then extArticle.Utime else maxUtime)

/-- The body of the loop of `IndexPendingArticles` (sync.go 155-180) for one article read by
the pending query. -/
def indexOne (F : Faults) (now : Nat) (rows : List SyncedArticle) (article : SyncedArticle) :
    List SyncedArticle :=
  if F.newIndexer article then rows
  else if F.indexContent article then rows
  else if F.markIndexed article then rows
  else
    match saveArticle now rows { article with IsIndexed := true } with
    | none => rows
    | some rows' => rows'

/-- IndexPendingArticles (sync.go 138-184) on the replica table; the only error it returns is
the failure of the pending query.  What the vector backend stores is outside the replica and not
part of the embedding; the outcome of its calls is given by `F`. -/
def IndexPendingArticles (F : Faults) (now : Nat) (rows : List SyncedArticle) :
    Except String (List SyncedArticle) :=
  if F.queryPending then .error "failed to query pending articles"
  else
    let articles := rows.filter (fun a => a.IsIndexed = false)
    if articles.length = 0 then .ok rows
    else .ok (articles.foldl (indexOne F now) rows)

/-- The numbered steps of `SyncArticles` that a cycle reaches: 3 (upsert), 4 (sync state),
5 (the call of `IndexPendingArticles`). -/
inductive Step where
  | upsert
  | watermark
  | indexing
deriving DecidableEq, Repr

/-- The two errors `SyncArticles` returns. -/
inductive SyncError where
  | queryExternal
  | updateSyncState
deriving DecidableEq, Repr

/-- What one call of `SyncArticles` leaves behind: the database, the returned error and the
steps it went through. -/
structure CycleResult where
  db : DB
  err : Option SyncError
  steps : List Step
deriving DecidableEq, Repr

/-- Step 5 of `SyncArticles` (sync.go 130-134): an error of the indexing pass is logged only. -/
def finishCycle (F : Faults) (now : Nat) (rows : List SyncedArticle)
    (states : List SyncState) : CycleResult :=
  { db :=
      { articles :=
          match IndexPendingArticles F now rows with
          | .error _ => rows
          | .ok rows' => rows'
        states := states }
    err := none
    steps := [Step.upsert, Step.watermark, Step.indexing] }

/-- SyncArticles (sync.go 46-135): `now` is the value of `time.Now()`, `ext` the external
table. -/
def SyncArticles (F : Faults) (now : Nat) (ext : List PublishedArticle) (db : DB) :
    CycleResult :=
  let syncState := readSyncState F db.states
  if F.queryExternal then { db := db, err := some SyncError.queryExternal, steps := [] }
  else
    let externalArticles := queryPublished ext syncState.LastUtime
    if externalArticles.length = 0 then { db := db, err := none, steps := [] }
    else
      let r := upsertLoop F now externalArticles db.articles 0
      if r.2 > 0 then
        match (if F.saveState then none
               else saveState db.states { syncState with LastUtime := r.2, UpdatedAt := now }) with
        | none =>
          { db := { articles := r.1, states := db.states }
            err := some SyncError.updateSyncState
            steps := [Step.upsert, Step.watermark] }
        | some states' => finishCycle F now r.1 states'
      else finishCycle F now r.1 db.states

/-! ## Vocabulary of the statements -/

/-- The persisted watermark: `LastUtime` of the row of `published_articles`; a missing row
counts as 0, as in step 1. -/
def watermark (db : DB) : Int :=
  match db.states.find? (fun s => s.TableName = tableName) with
  | some s => s.LastUtime
  | none => 0

/-- The replica table respects its keys: primary keys are non-zero and pairwise distinct,
external ids are pairwise distinct. -/
def ArticlesWF (rows : List SyncedArticle) : Prop :=
  (∀ r ∈ rows, r.ID ≠ 0) ∧ (rows.map (·.ID)).Nodup ∧ (rows.map (·.ExternalID)).Nodup

/-- The sync-state table respects its keys: primary keys are non-zero and pairwise distinct,
table names are pairwise distinct. -/
def StatesWF (states : List SyncState) : Prop :=
  (∀ s ∈ states, s.ID ≠ 0) ∧ (states.map (·.ID)).Nodup ∧ (states.map (·.TableName)).Nodup

/-- Both tables respect their keys. -/
def DB.WF (db : DB) : Prop := ArticlesWF db.articles ∧ StatesWF db.states

instance (rows : List SyncedArticle) : Decidable (ArticlesWF rows) := by
  unfold ArticlesWF
  infer_instance

instance (states : List SyncState) : Decidable (StatesWF states) := by
  unfold StatesWF
  infer_instance

instance (db : DB) : Decidable db.WF := by
  unfold DB.WF
  infer_instance

/-- `m` is the maximum `Utime` over `l`. -/
def IsMaxUtime (m : Int) (l : List PublishedArticle) : Prop :=
  (∃ e ∈ l, e.Utime = m) ∧ ∀ e ∈ l, e.Utime ≤ m

/-- The candidates of a cycle whose upsert succeeded, in processing order. -/
def upserted (F : Faults) (now : Nat) :
    List PublishedArticle → List SyncedArticle → List PublishedArticle
  | [], _ => []
  | e :: rest, rows =>
    match upsertArticle F now rows e with
    | none => upserted F now rest rows
    | some rows' => e :: upserted F now rest rows'

/-- The replica table after a successful upsert of `e` at time `now`, when the table respects
its keys: the row of external id `e.ID` is overwritten as in sync.go 103-107, or a new row is
appended as in sync.go 86-95. -/
def applyExt (now : Nat) (e : PublishedArticle) (rows : List SyncedArticle) :
    List SyncedArticle :=
  if ∃ r ∈ rows, r.ExternalID = e.ID then
    rows.map (fun r =>
      if r.ExternalID = e.ID then
        { r with
          Title := e.Title, Content := e.Content, Status := e.Status,
          ExternalUtime := e.Utime, IsIndexed := false, UpdatedAt := now }
      else r)
  else
    rows ++
      [{ ID := freshID (rows.map (·.ID)), ExternalID := e.ID, AuthorID := e.AuthorID,
         Title := e.Title, Content := e.Content, Status := e.Status,
         ExternalCtime := e.Ctime, ExternalUtime := e.Utime, IsIndexed := false,
         CreatedAt := now, UpdatedAt := now }]

/-- Every call made for article `a` by the indexing loop succeeds. -/
def Faults.indexes (F : Faults) (a : SyncedArticle) : Prop :=
  F.newIndexer a = false ∧ F.indexContent a = false ∧ F.markIndexed a = false

instance (F : Faults) (a : SyncedArticle) : Decidable (F.indexes a) := by
  unfold Faults.indexes
  infer_instance

/-- The candidates of a cycle: what the query of step 2 returns for the sync state read in
step 1. -/
def candidates (F : Faults) (ext : List PublishedArticle) (db : DB) : List PublishedArticle :=
  queryPublished ext (readSyncState F db.states).LastUtime

/-- The replica row `r` carries the external id of `e` and the four columns an update
overwrites (title, content, status, external updated-at). -/
def Mirrors (r : SyncedArticle) (e : PublishedArticle) : Prop :=
  r.ExternalID = e.ID ∧ r.Title = e.Title ∧ r.Content = e.Content ∧ r.Status = e.Status ∧
    r.ExternalUtime = e.Utime

/-- The replica row `r` carries all the columns of `e`: those of `Mirrors`, the author id and
the external created-at. -/
def MirrorsAll (r : SyncedArticle) (e : PublishedArticle) : Prop :=
  Mirrors r e ∧ r.AuthorID = e.AuthorID ∧ r.ExternalCtime = e.Ctime

instance (m : Int) (l : List PublishedArticle) : Decidable (IsMaxUtime m l) := by
  unfold IsMaxUtime
  infer_instance

instance (r : SyncedArticle) (e : PublishedArticle) : Decidable (Mirrors r e) := by
  unfold Mirrors
  infer_instance

instance (r : SyncedArticle) (e : PublishedArticle) : Decidable (MirrorsAll r e) := by
  unfold MirrorsAll
  infer_instance

/-- One scheduled cycle: the environment's faults, the clock and the external table. -/
structure Cycle where
  F : Faults
  now : Nat
  ext : List PublishedArticle

/-- The database before the first cycle and after each cycle of a sequence. -/
def trajectory : List Cycle → DB → List DB
  | [], db => [db]
  | c :: cs, db => db :: trajectory cs (SyncArticles c.F c.now c.ext db).db

/-! ## Concrete inputs used by the closed statements -/

/-- A document with the given identifier and content and no metadata. -/
def mkDoc (id content : String) : Document := { ID := id, Content := content, MetaData := [] }

/-- One index that returns a document with content and a document whose content is empty. -/
def retrieversWithBlank : List Retriever :=
  [fun _ => .ok [mkDoc "a" "alpha", mkDoc "b" ""]]

/-- Three indexes of three documents each; the content "B" is returned by the first and by the
second index. -/
def threeIndexes : List Retriever :=
  [fun _ => .ok [mkDoc "a1" "A", mkDoc "a2" "B", mkDoc "a3" "C"],
   fun _ => .ok [mkDoc "b1" "D", mkDoc "b2" "B", mkDoc "b3" "E"],
   fun _ => .ok [mkDoc "c1" "F", mkDoc "c2" "G", mkDoc "c3" "H"]]

/-- Three indexes, the second of which fails. -/
def threeIndexesOneDown : List Retriever :=
  [fun _ => .ok [mkDoc "a1" "A", mkDoc "a2" "B", mkDoc "a3" "C"],
   fun _ => .error "connection refused",
   fun _ => .ok [mkDoc "c1" "B", mkDoc "c2" "G", mkDoc "c3" "A"]]

/-- A replica row of author 1 with the given keys, texts and flag, created and last saved at
time 3. -/
def mkRow (id externalID : Int) (title content : String) (indexed : Bool) : SyncedArticle :=
  { ID := id, ExternalID := externalID, AuthorID := 1, Title := title, Content := content,
    Status := 2, ExternalCtime := 10, ExternalUtime := 20, IsIndexed := indexed,
    CreatedAt := 3, UpdatedAt := 3 }

/-- A replica of three rows: the first indexed, the other two pending. -/
def replicaTwoPending : List SyncedArticle :=
  [mkRow 1 11 "t1" "c1" true, mkRow 2 12 "t2" "c2" false, mkRow 3 13 "t3" "c3" false]

/-- The vector backend refuses the store call for the article with local id 2. -/
def storeCallFailsFor2 : Faults :=
  { Faults.healthy with indexContent := fun a => a.ID = 2 }

/-- A published external article of author 1 with the given id, content and `Utime`. -/
def mkPublished (id : Int) (content : String) (utime : Int) : PublishedArticle :=
  { ID := id, Title := "title", Content := content, AuthorID := 1, Status := 2, Ctime := 1,
    Utime := utime }

/-- A database with no replica row and no sync-state row. -/
def emptyDB : DB := { articles := [], states := [] }

/-- Two published external articles, updated at 100 and at 200. -/
def twoPublished : List PublishedArticle :=
  [mkPublished 1 "first" 100, mkPublished 2 "second" 200]

/-- The store refuses `Create` for the external article with id 2. -/
def createFailsFor2 : Faults :=
  { Faults.healthy with create := fun e => e.ID = 2 }

/-- A database whose only replica row is pending and whose watermark is 20. -/
def pendingDB : DB :=
  { articles := [mkRow 1 11 "t1" "c1" false],
    states := [{ ID := 1, TableName := "published_articles", LastUtime := 20, UpdatedAt := 3 }] }

/-- An external table whose only article was last updated at the watermark of `pendingDB`. -/
def nothingNew : List PublishedArticle := [mkPublished 11 "c1" 20]

/-- An external table with one article newer than the watermark of `pendingDB`. -/
def oneNew : List PublishedArticle := [mkPublished 11 "c1" 20, mkPublished 12 "c2" 30]

/-- Two published articles updated at 100 and 200 and a draft (status 1) updated at 150. -/
def twoPublishedOneDraft : List PublishedArticle :=
  [mkPublished 1 "first" 100,
   { ID := 3, Title := "draft", Content := "third", AuthorID := 1, Status := 1, Ctime := 1,
     Utime := 150 },
   mkPublished 2 "second" 200]

/-- An external table with the single published article 7, updated at 100. -/
def onlySeven : List PublishedArticle := [mkPublished 7 "seven" 100]

/-- A database that already holds article 7 with an older content, indexed, and whose
watermark is 50. -/
def staleSevenDB : DB :=
  { articles :=
      [{ ID := 1, ExternalID := 7, AuthorID := 1, Title := "title", Content := "old",
         Status := 2, ExternalCtime := 1, ExternalUtime := 40, IsIndexed := true,
         CreatedAt := 3, UpdatedAt := 3 }]
    states := [{ ID := 1, TableName := "published_articles", LastUtime := 50, UpdatedAt := 3 }] }

/-- The vector backend cannot build any indexer. -/
def backendDown : Faults :=
  { Faults.healthy with newIndexer := fun _ => true }

/-! ## Retrieval: the loops against the specification's words -/

theorem collectDocs_foldl (rs : List Retriever) (q : String) (acc : List Document) :
    rs.foldl
      (fun allDocs rtr =>
        match rtr q with
        | .error _ => allDocs
        | .ok docs => allDocs ++ docs)
      acc = acc ++ concatResults rs q := by
  induction rs generalizing acc with
  | nil => simp [concatResults]
  | cons r rs ih =>
    rw [List.foldl_cons, ih]
    cases h : r q <;> simp [concatResults, h]

theorem collectDocs_eq (rs : List Retriever) (q : String) :
    collectDocs rs q = concatResults rs q := by
  unfold collectDocs
  rw [collectDocs_foldl]
  simp

/-- Folding the step of `firstOccurrences` only appends, and what it appends is a subsequence
of the input. -/
theorem keepStep_prefix (l acc : List Document) :
    ∃ t, l.foldl
      (fun kept d => if ∃ k ∈ kept, k.Content = d.Content then kept else kept ++ [d])
      acc = acc ++ t ∧ t.Sublist l := by
  induction l generalizing acc with
  | nil => exact ⟨[], by simp⟩
  | cons d l ih =>
    rw [List.foldl_cons]
    by_cases h : ∃ k ∈ acc, k.Content = d.Content
    · rw [if_pos h]
      obtain ⟨t, ht, hs⟩ := ih acc
      exact ⟨t, ht, hs.trans (List.sublist_cons_self d l)⟩
    · rw [if_neg h]
      obtain ⟨t, ht, hs⟩ := ih (acc ++ [d])
      refine ⟨d :: t, ?_, hs.cons₂ d⟩
      rw [ht]
      simp

theorem keepStep_nodup (l acc : List Document) (hacc : (acc.map (·.Content)).Nodup) :
    ((l.foldl
      (fun kept d => if ∃ k ∈ kept, k.Content = d.Content then kept else kept ++ [d])
      acc).map (·.Content)).Nodup := by
  induction l generalizing acc with
  | nil => simpa using hacc
  | cons d l ih =>
    rw [List.foldl_cons]
    by_cases h : ∃ k ∈ acc, k.Content = d.Content
    · rw [if_pos h]
      exact ih acc hacc
    · rw [if_neg h]
      apply ih
      rw [List.map_append, List.nodup_append]
      refine ⟨hacc, by simp, ?_⟩
      intro c hc hc'
      simp only [List.map_cons, List.map_nil, List.mem_singleton] at hc'
      rw [List.mem_map] at hc
      obtain ⟨k, hk, hkc⟩ := hc
      exact h ⟨k, hk, by rw [← hc']; exact hkc⟩

theorem dedupLoop_eq (rest : List Document) (seen : List String) (uniq : List Document)
    (hseen : ∀ c, c ∈ seen ↔ ∃ k ∈ uniq, k.Content = c) (hlen : uniq.length < 5) :
    dedupLoop rest seen uniq =
      ((rest.filter (fun d => d.Content ≠ "")).foldl
        (fun kept d => if ∃ k ∈ kept, k.Content = d.Content then kept else kept ++ [d])
        uniq).take 5 := by
  induction rest generalizing seen uniq with
  | nil =>
    simp only [dedupLoop, List.filter_nil, List.foldl_nil]
    rw [List.take_of_length_le (by omega)]
  | cons doc rest ih =>
    unfold dedupLoop
    by_cases hc : doc.Content ∉ seen ∧ doc.Content ≠ ""
    · rw [if_pos hc]
      have hkeep : ¬ ∃ k ∈ uniq, k.Content = doc.Content := fun h => hc.1 ((hseen _).2 h)
      have hfil : (doc :: rest).filter (fun d => d.Content ≠ "") =
          doc :: rest.filter (fun d => d.Content ≠ "") := by
        rw [List.filter_cons_of_pos]
        simpa using hc.2
      rw [hfil, List.foldl_cons, if_neg hkeep]
      by_cases h5 : (uniq ++ [doc]).length ≥ 5
      · rw [if_pos h5]
        obtain ⟨t, ht, -⟩ := keepStep_prefix (rest.filter (fun d => d.Content ≠ "")) (uniq ++ [doc])
        rw [ht]
        have hl : (uniq ++ [doc]).length = 5 := by
          simp only [List.length_append, List.length_singleton] at h5 ⊢
          omega
        rw [List.take_append_of_le_length (by omega), List.take_of_length_le (by omega)]
      · rw [if_neg h5]
        apply ih
        · intro c
          simp only [List.mem_cons, List.mem_append, List.not_mem_nil, or_false]
          constructor
          · rintro (rfl | h)
            · exact ⟨doc, Or.inr rfl, rfl⟩
            · obtain ⟨k, hk, hkc⟩ := (hseen c).1 h
              exact ⟨k, Or.inl hk, hkc⟩
          · rintro ⟨k, hk | rfl, hkc⟩
            · exact Or.inr ((hseen c).2 ⟨k, hk, hkc⟩)
            · exact Or.inl hkc.symm
        · omega
    · rw [if_neg hc]
      by_cases he : doc.Content = ""
      · have hfil : (doc :: rest).filter (fun d => d.Content ≠ "") =
            rest.filter (fun d => d.Content ≠ "") := by
          rw [List.filter_cons_of_neg]
          simpa using he
        rw [hfil]
        exact ih seen uniq hseen hlen
      · have hin : doc.Content ∈ seen := by
          by_contra hn
          exact hc ⟨hn, he⟩
        have hfil : (doc :: rest).filter (fun d => d.Content ≠ "") =
            doc :: rest.filter (fun d => d.Content ≠ "") := by
          rw [List.filter_cons_of_pos]
          simpa using he
        rw [hfil, List.foldl_cons, if_pos ((hseen _).1 hin)]
        exact ih seen uniq hseen hlen

/-- The value of `RetrieveDocuments` on every input. -/
theorem RetrieveDocuments_eq (rs : List Retriever) (q : String) :
    RetrieveDocuments rs q =
      if concatResults rs q = [] then .error "no documents retrieved from any index"
      else .ok ((firstOccurrences ((concatResults rs q).filter (fun d => d.Content ≠ ""))).take 5) := by
  unfold RetrieveDocuments
  simp only [collectDocs_eq, List.length_eq_zero]
  by_cases h : concatResults rs q = []
  · simp [h]
  · rw [if_neg h, if_neg h, dedupLoop_eq _ _ _ (by simp) (by simp)]
    rfl

/-- C1 as stated fails: with one index returning the contents "alpha" and "", the code returns
only the first document, while concatenating, keeping first occurrences and taking 5 keeps
both. -/
theorem C1_counterexample :
    RetrieveDocuments retrieversWithBlank "q" = .ok [mkDoc "a" "alpha"] ∧
    (firstOccurrences (concatResults retrieversWithBlank "q")).take 5 =
      [mkDoc "a" "alpha", mkDoc "b" ""] ∧
    ¬ (∀ res, RetrieveDocuments retrieversWithBlank "q" = .ok res →
        res = (firstOccurrences (concatResults retrieversWithBlank "q")).take 5) := by
  refine ⟨rfl, by decide, ?_⟩
  intro h
  have h1 := h [mkDoc "a" "alpha"] rfl
  revert h1
  decide

/-- C1 (amended): whenever `RetrieveDocuments` succeeds, its result is obtained by concatenating
the documents of the retrievers in retriever order (a failing retriever contributes nothing),
dropping the documents whose `Content` is empty, keeping the first occurrence of each distinct
`Content`, and taking the first 5. -/
theorem C1_retrieve_merge (rs : List Retriever) (q : String) (res : List Document)
    (h : RetrieveDocuments rs q = .ok res) :
    res = (firstOccurrences ((concatResults rs q).filter (fun d => d.Content ≠ ""))).take 5 := by
  rw [RetrieveDocuments_eq] at h
  by_cases hc : concatResults rs q = []
  · rw [if_pos hc] at h
    cases h
  · rw [if_neg hc] at h
    injection h with h
    exact h.symm

/-- C1 (amended) on three indexes of three documents, two of which share the content "B": the
result is the five first distinct contents in first-seen order. -/
theorem C1_retrieve_merge_witness :
    RetrieveDocuments threeIndexes "q" =
        .ok [mkDoc "a1" "A", mkDoc "a2" "B", mkDoc "a3" "C", mkDoc "b1" "D", mkDoc "b3" "E"] ∧
    [mkDoc "a1" "A", mkDoc "a2" "B", mkDoc "a3" "C", mkDoc "b1" "D", mkDoc "b3" "E"] =
      (firstOccurrences
        ((concatResults threeIndexes "q").filter (fun d => d.Content ≠ ""))).take 5 :=
  ⟨rfl, C1_retrieve_merge threeIndexes "q" _ rfl⟩

/-- C10: whenever `RetrieveDocuments` succeeds, the returned list has at most 5 documents, no
two of them have equal `Content`, and it is a subsequence of the concatenation of the
retrievers' results. -/
theorem C10_retrieve_bounded (rs : List Retriever) (q : String) (res : List Document)
    (h : RetrieveDocuments rs q = .ok res) :
    res.length ≤ 5 ∧ res.Pairwise (fun a b => a.Content ≠ b.Content) ∧
      res.Sublist (concatResults rs q) := by
  rw [RetrieveDocuments_eq] at h
  by_cases hc : concatResults rs q = []
  · rw [if_pos hc] at h
    cases h
  · rw [if_neg hc] at h
    injection h with h
    subst h
    refine ⟨List.length_take_le _ _, ?_, ?_⟩
    · have hn := keepStep_nodup ((concatResults rs q).filter (fun d => d.Content ≠ "")) []
        (by simp)
      have hn' : (firstOccurrences
          ((concatResults rs q).filter (fun d => d.Content ≠ ""))).Pairwise
          (fun a b => a.Content ≠ b.Content) := by
        have := List.pairwise_map.1 hn
        exact this
      exact hn'.sublist (List.take_sublist _ _)
    · obtain ⟨t, ht, hs⟩ :=
        keepStep_prefix ((concatResults rs q).filter (fun d => d.Content ≠ "")) []
      refine (List.take_sublist _ _).trans ?_
      unfold firstOccurrences
      rw [ht, List.nil_append]
      exact hs.trans (List.filter_sublist _)

/-- C10 on three indexes, one of which fails and the others share two contents. -/
theorem C10_retrieve_bounded_witness :
    RetrieveDocuments threeIndexesOneDown "q" =
        .ok [mkDoc "a1" "A", mkDoc "a2" "B", mkDoc "a3" "C", mkDoc "c2" "G"] ∧
    ([mkDoc "a1" "A", mkDoc "a2" "B", mkDoc "a3" "C", mkDoc "c2" "G"].length ≤ 5 ∧
      [mkDoc "a1" "A", mkDoc "a2" "B", mkDoc "a3" "C", mkDoc "c2" "G"].Pairwise
        (fun a b => a.Content ≠ b.Content) ∧
      [mkDoc "a1" "A", mkDoc "a2" "B", mkDoc "a3" "C", mkDoc "c2" "G"].Sublist
        (concatResults threeIndexesOneDown "q")) :=
  ⟨rfl, C10_retrieve_bounded threeIndexesOneDown "q" _ rfl⟩

/-! ## Prompt assembly -/

theorem contextLoop_eq (docs : List Document) (i : Nat) (acc : String) :
    contextLoop docs i acc =
      ((docs.enumFrom (i + 1)).map renderDoc).foldl (fun r s => r ++ s) acc := by
  induction docs generalizing i acc with
  | nil => rfl
  | cons d ds ih =>
    simp only [contextLoop, List.enumFrom_cons, List.map_cons, List.foldl_cons]
    rw [ih]
    rfl

/-- C9: `BuildRAGPrompt query docs` is `query` when `docs` is empty; for non-empty `docs` it is
the fixed template in which the documents appear in input order, the i-th (from 1) rendered as
"[文档 i]: ", its `Content` and a blank line, followed by the literal query; on the query
"What is X?" and the single document "X is Y" it is the text shown. -/
theorem C9_BuildRAGPrompt (query : String) :
    BuildRAGPrompt query [] = query ∧
    (∀ d ds, BuildRAGPrompt query (d :: ds) =
      "基于以下参考文档回答用户的问题。如果文档中没有相关信息，请说明无法找到相关信息。\n\n参考文档：\n"
        ++ String.join (((d :: ds).enumFrom 1).map renderDoc)
        ++ "\n\n用户问题：" ++ query ++ "\n\n请提供准确、完整的回答：") ∧
    BuildRAGPrompt "What is X?" [] = "What is X?" ∧
    BuildRAGPrompt "What is X?" [mkDoc "doc_1" "X is Y"] =
      "基于以下参考文档回答用户的问题。如果文档中没有相关信息，请说明无法找到相关信息。\n\n参考文档：\n[文档 1]: X is Y\n\n\n\n用户问题：What is X?\n\n请提供准确、完整的回答：" := by
  refine ⟨rfl, ?_, by decide, by decide⟩
  intro d ds
  unfold BuildRAGPrompt
  rw [if_neg (by simp), contextLoop_eq]
  rfl

/-! ## Synchronisation: keys, query and running maximum -/

theorem foldr_max_ge (ids : List Int) : ∀ i ∈ ids, i ≤ ids.foldr max 0 := by
  induction ids with
  | nil => simp
  | cons a l ih =>
    intro i hi
    rw [List.foldr_cons]
    rcases List.mem_cons.1 hi with rfl | h
    · exact le_max_left _ _
    · exact (ih i h).trans (le_max_right _ _)

theorem foldr_max_nonneg (ids : List Int) : 0 ≤ ids.foldr max 0 := by
  induction ids with
  | nil => simp
  | cons a l ih =>
    rw [List.foldr_cons]
    exact ih.trans (le_max_right _ _)

theorem freshID_gt (ids : List Int) : ∀ i ∈ ids, i < freshID ids := by
  intro i hi
  have := foldr_max_ge ids i hi
  unfold freshID
  omega

theorem freshID_ne_zero (ids : List Int) : freshID ids ≠ 0 := by
  have := foldr_max_nonneg ids
  unfold freshID
  omega

theorem mem_queryPublished {ext : List PublishedArticle} {w : Int} {e : PublishedArticle} :
    e ∈ queryPublished ext w ↔ e ∈ ext ∧ e.Status = statusPublished ∧ e.Utime > w := by
  unfold queryPublished
  rw [(List.perm_insertionSort _ _).mem_iff, List.mem_filter]
  simp

theorem runMax_ge_init (l : List PublishedArticle) (m : Int) :
    m ≤ l.foldl (fun m e => if e.Utime > m then e.Utime else m) m := by
  induction l generalizing m with
  | nil => simp
  | cons a l ih =>
    rw [List.foldl_cons]
    refine le_trans ?_ (ih _)
    split <;> omega

theorem runMax_ge_mem (l : List PublishedArticle) (m : Int) :
    ∀ e ∈ l, e.Utime ≤ l.foldl (fun m e => if e.Utime > m then e.Utime else m) m := by
  induction l generalizing m with
  | nil => simp
  | cons a l ih =>
    intro e he
    rw [List.foldl_cons]
    rcases List.mem_cons.1 he with rfl | h
    · refine le_trans ?_ (runMax_ge_init l _)
      split <;> omega
    · exact ih _ e h

theorem runMax_mem (l : List PublishedArticle) (m : Int) :
    l.foldl (fun m e => if e.Utime > m then e.Utime else m) m = m ∨
      ∃ e ∈ l, e.Utime = l.foldl (fun m e => if e.Utime > m then e.Utime else m) m := by
  induction l generalizing m with
  | nil => simp
  | cons a l ih =>
    rw [List.foldl_cons]
    rcases ih (if a.Utime > m then a.Utime else m) with h | ⟨e, he, h⟩
    · rw [h]
      by_cases ha : a.Utime > m
      · rw [if_pos ha]
        exact Or.inr ⟨a, List.mem_cons_self _ _, rfl⟩
      · rw [if_neg ha]
        exact Or.inl rfl
    · exact Or.inr ⟨e, List.mem_cons_of_mem _ he, h⟩

theorem upserted_sublist (F : Faults) (now : Nat) (cands : List PublishedArticle)
    (rows : List SyncedArticle) : (upserted F now cands rows).Sublist cands := by
  induction cands generalizing rows with
  | nil => simp [upserted]
  | cons e rest ih =>
    unfold upserted
    cases h : upsertArticle F now rows e with
    | none => exact (ih rows).trans (List.sublist_cons_self _ _)
    | some rows' => exact (ih rows').cons₂ e

/-- The running `maxUtime` of the loop is the running maximum over the candidates whose upsert
succeeded. -/
theorem upsertLoop_snd (F : Faults) (now : Nat) (cands : List PublishedArticle)
    (rows : List SyncedArticle) (m : Int) :
    (upsertLoop F now cands rows m).2 =
      (upserted F now cands rows).foldl (fun m e => if e.Utime > m then e.Utime else m) m := by
  induction cands generalizing rows m with
  | nil => simp [upsertLoop, upserted]
  | cons e rest ih =>
    unfold upsertLoop upserted
    cases h : upsertArticle F now rows e with
    | none => exact ih rows m
    | some rows' => exact ih rows' _

/-! ## Synchronisation: the sync-state row -/

theorem readSyncState_tableName (F : Faults) (states : List SyncState) :
    (readSyncState F states).TableName = tableName := by
  unfold readSyncState
  by_cases hf : F.readState = true
  · simp [hf]
  · simp only [hf]
    cases h : states.find? (fun s => s.TableName = tableName) with
    | none => simp
    | some s => simpa using List.find?_some h

theorem readSyncState_lastUtime (F : Faults) (db : DB) (hf : F.readState = false) :
    (readSyncState F db.states).LastUtime = watermark db := by
  unfold readSyncState watermark
  simp only [hf]
  cases h : db.states.find? (fun s => s.TableName = tableName) <;> simp

theorem find?_map_overwrite (p : SyncState → Bool) (k : Int) (s : SyncState) (hp : p s = true)
    (l : List SyncState) (hex : ∃ r ∈ l, r.ID = k) (hno : ∀ r ∈ l, r.ID ≠ k → p r = false) :
    (l.map (fun r => if r.ID = k then s else r)).find? p = some s := by
  induction l with
  | nil => simp at hex
  | cons a l ih =>
    rw [List.map_cons]
    by_cases ha : a.ID = k
    · rw [if_pos ha, List.find?_cons_of_pos _ hp]
    · rw [if_neg ha, List.find?_cons_of_neg _ (by simp [hno a (List.mem_cons_self _ _) ha])]
      apply ih
      · obtain ⟨r, hr, hrk⟩ := hex
        rcases List.mem_cons.1 hr with rfl | h
        · exact absurd hrk ha
        · exact ⟨r, h, hrk⟩
      · intro r hr
        exact hno r (List.mem_cons_of_mem _ hr)

theorem createState_find (states states' : List SyncState) (s : SyncState)
    (hs : s.TableName = tableName) (h : createState states s = some states') :
    ∃ x, states'.find? (fun s => s.TableName = tableName) = some x ∧
      x.LastUtime = s.LastUtime ∧
      states.find? (fun s => s.TableName = tableName) = none := by
  unfold createState at h
  by_cases h1 : ∃ r ∈ states, r.TableName = s.TableName
  · rw [if_pos h1] at h
    cases h
  · rw [if_neg h1] at h
    have hnone : states.find? (fun s => s.TableName = tableName) = none := by
      rw [List.find?_eq_none]
      intro x hx hpx
      exact h1 ⟨x, hx, by rw [hs]; simpa using hpx⟩
    by_cases h2 : s.ID = 0
    · rw [if_pos h2] at h
      injection h with h
      subst h
      refine ⟨{ s with ID := freshID (states.map (·.ID)) }, ?_, rfl, hnone⟩
      rw [List.find?_append, hnone]
      simp [hs]
    · rw [if_neg h2] at h
      by_cases h3 : ∃ r ∈ states, r.ID = s.ID
      · rw [if_pos h3] at h
        cases h
      · rw [if_neg h3] at h
        injection h with h
        subst h
        refine ⟨s, ?_, rfl, hnone⟩
        rw [List.find?_append, hnone]
        simp [hs]

/-- After a successful `Save(&syncState)` the stored watermark is the saved one. -/
theorem saveState_find (states states' : List SyncState) (s : SyncState)
    (hs : s.TableName = tableName) (h : saveState states s = some states') :
    ∃ x, states'.find? (fun s => s.TableName = tableName) = some x ∧
      x.LastUtime = s.LastUtime := by
  unfold saveState at h
  by_cases h0 : s.ID = 0
  · rw [if_pos h0] at h
    obtain ⟨x, hx, hl, -⟩ := createState_find states states' s hs h
    exact ⟨x, hx, hl⟩
  · rw [if_neg h0] at h
    by_cases h1 : ∃ r ∈ states, r.ID = s.ID
    · rw [if_pos h1] at h
      by_cases h2 : ∃ r ∈ states, r.ID ≠ s.ID ∧ r.TableName = s.TableName
      · rw [if_pos h2] at h
        cases h
      · rw [if_neg h2] at h
        injection h with h
        subst h
        refine ⟨s, ?_, rfl⟩
        apply find?_map_overwrite _ _ _ (by simp [hs]) _ h1
        intro r hr hne
        by_contra hp
        exact h2 ⟨r, hr, hne, by rw [hs]; simpa using hp⟩
    · rw [if_neg h1] at h
      obtain ⟨x, hx, hl, -⟩ := createState_find states states' s hs h
      exact ⟨x, hx, hl⟩

/-! ## Synchronisation: the five ways through `SyncArticles` -/

theorem SyncArticles_queryFault (F : Faults) (now : Nat) (ext : List PublishedArticle) (db : DB)
    (hq : F.queryExternal = true) :
    SyncArticles F now ext db =
      { db := db, err := some SyncError.queryExternal, steps := [] } := by
  unfold SyncArticles
  simp [hq]

theorem SyncArticles_noCandidates (F : Faults) (now : Nat) (ext : List PublishedArticle)
    (db : DB) (hq : F.queryExternal = false)
    (hc : queryPublished ext (readSyncState F db.states).LastUtime = []) :
    SyncArticles F now ext db = { db := db, err := none, steps := [] } := by
  unfold SyncArticles
  simp [hq, hc]

theorem SyncArticles_noAdvance (F : Faults) (now : Nat) (ext : List PublishedArticle)
    (db : DB) (hq : F.queryExternal = false)
    (hc : queryPublished ext (readSyncState F db.states).LastUtime ≠ [])
    (hm : ¬ (upsertLoop F now (queryPublished ext (readSyncState F db.states).LastUtime)
      db.articles 0).2 > 0) :
    SyncArticles F now ext db =
      finishCycle F now
        (upsertLoop F now (queryPublished ext (readSyncState F db.states).LastUtime)
          db.articles 0).1 db.states := by
  unfold SyncArticles
  simp only [hq, List.length_eq_zero, hc, if_false, Bool.false_eq_true]
  rw [if_neg hm]

theorem SyncArticles_saveFailed (F : Faults) (now : Nat) (ext : List PublishedArticle)
    (db : DB) (hq : F.queryExternal = false)
    (hc : queryPublished ext (readSyncState F db.states).LastUtime ≠ [])
    (hm : (upsertLoop F now (queryPublished ext (readSyncState F db.states).LastUtime)
      db.articles 0).2 > 0)
    (hs : (if F.saveState then none
      else saveState db.states
        { readSyncState F db.states with
          LastUtime := (upsertLoop F now (queryPublished ext (readSyncState F db.states).LastUtime)
            db.articles 0).2
          UpdatedAt := now }) = none) :
    SyncArticles F now ext db =
      { db :=
          { articles := (upsertLoop F now
              (queryPublished ext (readSyncState F db.states).LastUtime) db.articles 0).1
            states := db.states }
        err := some SyncError.updateSyncState
        steps := [Step.upsert, Step.watermark] } := by
  unfold SyncArticles
  simp only [hq, List.length_eq_zero, hc, if_false, Bool.false_eq_true]
  rw [if_pos hm, hs]

theorem SyncArticles_saved (F : Faults) (now : Nat) (ext : List PublishedArticle)
    (db : DB) (states' : List SyncState) (hq : F.queryExternal = false)
    (hc : queryPublished ext (readSyncState F db.states).LastUtime ≠ [])
    (hm : (upsertLoop F now (queryPublished ext (readSyncState F db.states).LastUtime)
      db.articles 0).2 > 0)
    (hs : (if F.saveState then none
      else saveState db.states
        { readSyncState F db.states with
          LastUtime := (upsertLoop F now (queryPublished ext (readSyncState F db.states).LastUtime)
            db.articles 0).2
          UpdatedAt := now }) = some states') :
    SyncArticles F now ext db =
      finishCycle F now
        (upsertLoop F now (queryPublished ext (readSyncState F db.states).LastUtime)
          db.articles 0).1 states' := by
  unfold SyncArticles
  simp only [hq, List.length_eq_zero, hc, if_false, Bool.false_eq_true]
  rw [if_pos hm, hs]

theorem watermark_states (a a' : List SyncedArticle) (states : List SyncState) :
    watermark { articles := a, states := states } =
      watermark { articles := a', states := states } := rfl

/-- A positive running maximum is the `Utime` of a candidate, hence above the watermark that
was read. -/
theorem upsertLoop_snd_gt (F : Faults) (now : Nat) (ext : List PublishedArticle) (w : Int)
    (rows : List SyncedArticle)
    (hm : (upsertLoop F now (queryPublished ext w) rows 0).2 > 0) :
    w < (upsertLoop F now (queryPublished ext w) rows 0).2 := by
  rw [upsertLoop_snd] at hm ⊢
  rcases runMax_mem (upserted F now (queryPublished ext w) rows) 0 with h | ⟨e, he, h⟩
  · rw [h] at hm
    omega
  · rw [← h]
    have := (mem_queryPublished.1 ((upserted_sublist F now _ rows).subset he)).2.2
    omega

/-- One cycle never lowers the persisted watermark. -/
theorem watermark_le_cycle (F : Faults) (now : Nat) (ext : List PublishedArticle) (db : DB) :
    watermark db ≤ watermark (SyncArticles F now ext db).db := by
  by_cases hq : F.queryExternal = true
  · rw [SyncArticles_queryFault F now ext db hq]
  · have hq : F.queryExternal = false := by simpa using hq
    by_cases hc : queryPublished ext (readSyncState F db.states).LastUtime = []
    · rw [SyncArticles_noCandidates F now ext db hq hc]
    · by_cases hm : (upsertLoop F now (queryPublished ext (readSyncState F db.states).LastUtime)
          db.articles 0).2 > 0
      · cases hs : (if F.saveState then none
            else saveState db.states
              { readSyncState F db.states with
                LastUtime := (upsertLoop F now
                  (queryPublished ext (readSyncState F db.states).LastUtime) db.articles 0).2
                UpdatedAt := now }) with
        | none =>
          rw [SyncArticles_saveFailed F now ext db hq hc hm hs]
          exact le_of_eq (watermark_states _ _ _)
        | some states' =>
          rw [SyncArticles_saved F now ext db states' hq hc hm hs]
          have hgt := upsertLoop_snd_gt F now ext _ db.articles hm
          by_cases hsv : F.saveState = true
          · simp [hsv] at hs
          · simp only [hsv, if_false, Bool.false_eq_true] at hs
            obtain ⟨x, hx, hxl⟩ := saveState_find db.states states' _
              (by exact readSyncState_tableName F db.states) hs
            have hnew : watermark (finishCycle F now (upsertLoop F now
                (queryPublished ext (readSyncState F db.states).LastUtime) db.articles 0).1
                states').db = (upsertLoop F now
                (queryPublished ext (readSyncState F db.states).LastUtime) db.articles 0).2 := by
              simp only [watermark, finishCycle, hx]
              exact hxl
            rw [hnew]
            by_cases hr : F.readState = true
            · have hid : (readSyncState F db.states).ID = 0 := by
                simp [readSyncState, hr]
              unfold saveState at hs
              rw [if_pos hid] at hs
              obtain ⟨-, -, -, hnone⟩ := createState_find db.states states' _
                (by exact readSyncState_tableName F db.states) hs
              have h0 : watermark db = 0 := by
                simp only [watermark, hnone]
              rw [h0]
              exact le_of_lt hm
            · have hr : F.readState = false := by simpa using hr
              rw [← readSyncState_lastUtime F db hr]
              exact le_of_lt hgt
      · rw [SyncArticles_noAdvance F now ext db hq hc hm]
        exact le_of_eq (watermark_states _ _ _)

/-- C3: along any sequence of sync cycles, over any external contents and any pattern of
failures, the persisted watermark `LastUtime` after each cycle is greater than or equal to its
value before that cycle. -/
theorem C3_watermark_monotone (cs : List Cycle) (db : DB) :
    List.Chain' (fun a b => watermark a ≤ watermark b) (trajectory cs db) ∧
    ∀ c : Cycle, watermark db ≤ watermark (SyncArticles c.F c.now c.ext db).db := by
  refine ⟨?_, fun c => watermark_le_cycle c.F c.now c.ext db⟩
  induction cs generalizing db with
  | nil => simp [trajectory]
  | cons c cs ih =>
    have h := ih (SyncArticles c.F c.now c.ext db).db
    cases cs with
    | nil =>
      simp only [trajectory, List.chain'_cons, List.chain'_singleton, and_true]
      exact watermark_le_cycle c.F c.now c.ext db
    | cons c' cs' =>
      simp only [trajectory] at h ⊢
      rw [List.chain'_cons]
      exact ⟨watermark_le_cycle c.F c.now c.ext db, h⟩

/-! ## Synchronisation: the replica table and its keys -/

/-- On a table that respects its keys, saving a modified copy of a stored row overwrites exactly
that row. -/
theorem saveArticle_stored (now : Nat) (rows : List SyncedArticle) (a0 a : SyncedArticle)
    (hWF : ArticlesWF rows) (hmem : a0 ∈ rows) (hid : a.ID = a0.ID)
    (hext : a.ExternalID = a0.ExternalID) :
    saveArticle now rows a =
      some (rows.map (fun r => if r = a0 then { a with UpdatedAt := now } else r)) := by
  obtain ⟨hnz, hids, hexts⟩ := hWF
  unfold saveArticle
  rw [if_neg (by rw [hid]; exact hnz a0 hmem), if_pos ⟨a0, hmem, hid.symm⟩, if_neg]
  · congr 1
    apply List.map_congr_left
    intro r hr
    by_cases h : r = a0
    · rw [if_pos h, if_pos (by rw [h, hid])]
    · rw [if_neg h, if_neg]
      intro h'
      exact h (List.inj_on_of_nodup_map hids hr hmem (by rw [h', hid]))
  · rintro ⟨r, hr, hne, he⟩
    exact hne (by
      rw [List.inj_on_of_nodup_map hexts hr hmem (by rw [he, hext]), hid])

theorem find?_externalID {rows : List SyncedArticle} {x : Int} {la : SyncedArticle}
    (h : rows.find? (fun r => r.ExternalID = x) = some la) : la ∈ rows ∧ la.ExternalID = x :=
  ⟨List.mem_of_find?_eq_some h, by simpa using List.find?_some h⟩

theorem applyExt_stored (now : Nat) (e : PublishedArticle) (rows : List SyncedArticle) (la : SyncedArticle)
    (hWF : ArticlesWF rows) (hmem : la ∈ rows) (hla : la.ExternalID = e.ID) :
    applyExt now e rows =
      rows.map (fun r =>
        if r = la then
          { la with
            Title := e.Title, Content := e.Content, Status := e.Status,
            ExternalUtime := e.Utime, IsIndexed := false, UpdatedAt := now }
        else r) := by
  unfold applyExt
  rw [if_pos ⟨la, hmem, hla⟩]
  apply List.map_congr_left
  intro r hr
  by_cases h : r = la
  · rw [if_pos h, if_pos (by rw [h, hla]), h]
  · rw [if_neg h, if_neg]
    intro h'
    exact h (List.inj_on_of_nodup_map hWF.2.2 hr hmem (by rw [h', hla]))

/-- A successful upsert on a table that respects its keys is `applyExt`. -/
theorem upsertArticle_eq (F : Faults) (now : Nat) (rows rows' : List SyncedArticle) (e : PublishedArticle)
    (hWF : ArticlesWF rows) (h : upsertArticle F now rows e = some rows') :
    rows' = applyExt now e rows := by
  unfold upsertArticle at h
  cases hfind : (if F.lookup e then none
      else rows.find? (fun r => r.ExternalID = e.ID)) with
  | none =>
    simp only [hfind] at h
    by_cases hc : F.create e = true
    · simp [hc] at h
    · simp only [hc, if_false, Bool.false_eq_true] at h
      unfold createArticle at h
      by_cases hex : ∃ r ∈ rows, r.ExternalID = e.ID
      · rw [if_pos hex] at h
        cases h
      · rw [if_neg hex, if_pos rfl] at h
        injection h with h
        unfold applyExt
        rw [if_neg hex, ← h]
        rfl
  | some la =>
    simp only [hfind] at h
    by_cases hl : F.lookup e = true
    · simp [hl] at hfind
    · simp only [hl, if_false, Bool.false_eq_true] at hfind
      obtain ⟨hmem, hla⟩ := find?_externalID hfind
      by_cases hu : F.update e = true
      · simp [hu] at h
      · simp only [hu, if_false, Bool.false_eq_true] at h
        have hsave := saveArticle_stored now rows la
          { la with
            Title := e.Title, Content := e.Content, Status := e.Status,
            ExternalUtime := e.Utime, IsIndexed := false } hWF hmem rfl rfl
        rw [hsave] at h
        injection h with h
        rw [applyExt_stored now e rows la hWF hmem hla, ← h]

/-- On a table that respects its keys, an upsert fails only through an injected fault. -/
theorem upsertArticle_ok (F : Faults) (now : Nat) (rows : List SyncedArticle) (e : PublishedArticle)
    (hWF : ArticlesWF rows) (hl : F.lookup e = false) (hc : F.create e = false)
    (hu : F.update e = false) :
    upsertArticle F now rows e = some (applyExt now e rows) := by
  have hsome : ∃ rows', upsertArticle F now rows e = some rows' := by
    unfold upsertArticle
    simp only [hl, hc, hu, if_false, Bool.false_eq_true]
    cases hfind : rows.find? (fun r => r.ExternalID = e.ID) with
    | none =>
      have hex : ¬ ∃ r ∈ rows, r.ExternalID = e.ID := by
        rintro ⟨r, hr, hre⟩
        have := List.find?_eq_none.1 hfind r hr
        simp [hre] at this
      simp only [createArticle]
      rw [if_neg hex]
      exact ⟨_, if_pos trivial⟩
    | some la =>
      obtain ⟨hmem, -⟩ := find?_externalID hfind
      exact ⟨_, saveArticle_stored now rows la
        { la with
          Title := e.Title, Content := e.Content, Status := e.Status,
          ExternalUtime := e.Utime, IsIndexed := false } hWF hmem rfl rfl⟩
  obtain ⟨rows', h⟩ := hsome
  rw [h, upsertArticle_eq F now rows rows' e hWF h]

theorem applyExt_WF (now : Nat) (e : PublishedArticle) (rows : List SyncedArticle) (hWF : ArticlesWF rows) :
    ArticlesWF (applyExt now e rows) := by
  obtain ⟨hnz, hids, hexts⟩ := hWF
  unfold applyExt
  by_cases hex : ∃ r ∈ rows, r.ExternalID = e.ID
  · rw [if_pos hex]
    have hID : ∀ r : SyncedArticle,
        (if r.ExternalID = e.ID then
          ({ r with
            Title := e.Title, Content := e.Content, Status := e.Status,
            ExternalUtime := e.Utime, IsIndexed := false, UpdatedAt := now } : SyncedArticle)
        else r).ID = r.ID := by
      intro r
      split <;> rfl
    have hEX : ∀ r : SyncedArticle,
        (if r.ExternalID = e.ID then
          ({ r with
            Title := e.Title, Content := e.Content, Status := e.Status,
            ExternalUtime := e.Utime, IsIndexed := false, UpdatedAt := now } : SyncedArticle)
        else r).ExternalID = r.ExternalID := by
      intro r
      split <;> rfl
    refine ⟨?_, ?_, ?_⟩
    · intro r hr
      obtain ⟨r0, hr0, rfl⟩ := List.mem_map.1 hr
      rw [hID]
      exact hnz r0 hr0
    · rw [List.map_map]
      have : ((fun r : SyncedArticle => r.ID) ∘ fun r : SyncedArticle =>
          if r.ExternalID = e.ID then
            ({ r with
              Title := e.Title, Content := e.Content, Status := e.Status,
              ExternalUtime := e.Utime, IsIndexed := false, UpdatedAt := now } : SyncedArticle)
          else r) = fun r => r.ID := funext hID
      rw [this]
      exact hids
    · rw [List.map_map]
      have : ((fun r : SyncedArticle => r.ExternalID) ∘ fun r : SyncedArticle =>
          if r.ExternalID = e.ID then
            ({ r with
              Title := e.Title, Content := e.Content, Status := e.Status,
              ExternalUtime := e.Utime, IsIndexed := false, UpdatedAt := now } : SyncedArticle)
          else r) = fun r => r.ExternalID := funext hEX
      rw [this]
      exact hexts
  · rw [if_neg hex]
    refine ⟨?_, ?_, ?_⟩
    · intro r hr
      rcases List.mem_append.1 hr with h | h
      · exact hnz r h
      · rw [List.mem_singleton.1 h]
        exact freshID_ne_zero _
    · rw [List.map_append, List.nodup_append]
      refine ⟨hids, by simp, ?_⟩
      intro i hi hi'
      simp only [List.map_cons, List.map_nil, List.mem_singleton] at hi'
      have := freshID_gt _ i hi
      omega
    · rw [List.map_append, List.nodup_append]
      refine ⟨hexts, by simp, ?_⟩
      intro i hi hi'
      simp only [List.map_cons, List.map_nil, List.mem_singleton] at hi'
      obtain ⟨r, hr, hri⟩ := List.mem_map.1 hi
      exact hex ⟨r, hr, by rw [hri, hi']⟩

theorem upsertArticle_WF (F : Faults) (now : Nat) (rows rows' : List SyncedArticle) (e : PublishedArticle)
    (hWF : ArticlesWF rows) (h : upsertArticle F now rows e = some rows') : ArticlesWF rows' := by
  rw [upsertArticle_eq F now rows rows' e hWF h]
  exact applyExt_WF now e rows hWF

theorem upsertLoop_WF (F : Faults) (now : Nat) (cands : List PublishedArticle) (rows : List SyncedArticle)
    (m : Int) (hWF : ArticlesWF rows) : ArticlesWF (upsertLoop F now cands rows m).1 := by
  induction cands generalizing rows m with
  | nil => exact hWF
  | cons e rest ih =>
    unfold upsertLoop
    cases h : upsertArticle F now rows e with
    | none => exact ih rows m hWF
    | some rows' => exact ih rows' _ (upsertArticle_WF F now rows rows' e hWF h)

/-- The rows after the loop are the rows after applying the upserted candidates in order. -/
theorem upsertLoop_fst (F : Faults) (now : Nat) (cands : List PublishedArticle) (rows : List SyncedArticle)
    (m : Int) (hWF : ArticlesWF rows) :
    (upsertLoop F now cands rows m).1 =
      (upserted F now cands rows).foldl (fun rows e => applyExt now e rows) rows := by
  induction cands generalizing rows m with
  | nil => rfl
  | cons e rest ih =>
    unfold upsertLoop upserted
    cases h : upsertArticle F now rows e with
    | none => exact ih rows m hWF
    | some rows' =>
      have := upsertArticle_eq F now rows rows' e hWF h
      simp only [List.foldl_cons]
      rw [← this]
      exact ih rows' _ (upsertArticle_WF F now rows rows' e hWF h)

/-- Without injected faults every candidate is upserted. -/
theorem upserted_all (F : Faults) (now : Nat) (cands : List PublishedArticle) (rows : List SyncedArticle)
    (hWF : ArticlesWF rows) (hl : ∀ e, F.lookup e = false) (hc : ∀ e, F.create e = false)
    (hu : ∀ e, F.update e = false) : upserted F now cands rows = cands := by
  induction cands generalizing rows with
  | nil => rfl
  | cons e rest ih =>
    unfold upserted
    rw [upsertArticle_ok F now rows e hWF (hl e) (hc e) (hu e)]
    simp only []
    rw [ih _ (applyExt_WF now e rows hWF)]

/-! ## The indexing pass -/

theorem map_keys_WF (g : SyncedArticle → SyncedArticle) (rows : List SyncedArticle)
    (hID : ∀ r, (g r).ID = r.ID) (hEX : ∀ r, (g r).ExternalID = r.ExternalID)
    (hWF : ArticlesWF rows) : ArticlesWF (rows.map g) := by
  obtain ⟨hnz, hids, hexts⟩ := hWF
  refine ⟨?_, ?_, ?_⟩
  · intro r hr
    obtain ⟨r0, hr0, rfl⟩ := List.mem_map.1 hr
    rw [hID]
    exact hnz r0 hr0
  · rw [List.map_map]
    have : ((fun r : SyncedArticle => r.ID) ∘ g) = fun r => r.ID := funext hID
    rw [this]
    exact hids
  · rw [List.map_map]
    have : ((fun r : SyncedArticle => r.ExternalID) ∘ g) = fun r => r.ExternalID := funext hEX
    rw [this]
    exact hexts

/-- One iteration of the indexing loop on a stored article. -/
theorem indexOne_eq (F : Faults) (now : Nat) (cur : List SyncedArticle) (a : SyncedArticle)
    (hWF : ArticlesWF cur) (hmem : a ∈ cur) :
    indexOne F now cur a =
      cur.map (fun r =>
        if r = a ∧ F.indexes a then { a with IsIndexed := true, UpdatedAt := now } else r) := by
  by_cases hi : F.indexes a
  · obtain ⟨h1, h2, h3⟩ := hi
    unfold indexOne
    simp only [h1, h2, h3, if_false, Bool.false_eq_true]
    rw [saveArticle_stored now cur a { a with IsIndexed := true } hWF hmem rfl rfl]
    simp only []
    apply List.map_congr_left
    intro r _
    have hi : F.indexes a := ⟨h1, h2, h3⟩
    simp only [hi, and_true]
  · have hid : cur.map (fun r =>
        if r = a ∧ F.indexes a then { a with IsIndexed := true, UpdatedAt := now } else r)
        = cur := by
      conv_rhs => rw [← List.map_id cur]
      apply List.map_congr_left
      intro r _
      simp only [hi, and_false, if_false, id]
    rw [hid]
    unfold indexOne
    by_cases h1 : F.newIndexer a = true
    · simp [h1]
    · by_cases h2 : F.indexContent a = true
      · simp [h1, h2]
      · by_cases h3 : F.markIndexed a = true
        · simp [h1, h2, h3]
        · exact absurd ⟨by simpa using h1, by simpa using h2, by simpa using h3⟩ hi

/-- The indexing loop over stored articles with distinct keys marks those whose indexing goes
through and leaves every other row as it is. -/
theorem indexLoop_eq (F : Faults) (now : Nat) (as cur : List SyncedArticle) (hWF : ArticlesWF cur)
    (hsub : ∀ a ∈ as, a ∈ cur) (hnd : (as.map (·.ID)).Nodup) :
    as.foldl (indexOne F now) cur =
      cur.map (fun r => if r ∈ as ∧ F.indexes r then { r with IsIndexed := true, UpdatedAt := now } else r) := by
  induction as generalizing cur with
  | nil =>
    simp only [List.foldl_nil, List.not_mem_nil, false_and, if_false]
    exact (List.map_id' cur).symm
  | cons a as ih =>
    rw [List.map_cons, List.nodup_cons] at hnd
    obtain ⟨hafresh, hnd⟩ := hnd
    have hamem : a ∈ cur := hsub a (List.mem_cons_self _ _)
    have hnotin : ∀ x : SyncedArticle, x.ID = a.ID → x ∉ as := by
      intro x hx hxas
      exact hafresh (List.mem_map.2 ⟨x, hxas, hx⟩)
    rw [List.foldl_cons, indexOne_eq F now cur a hWF hamem]
    rw [ih]
    · rw [List.map_map]
      apply List.map_congr_left
      intro r _
      simp only [Function.comp]
      by_cases hra : r = a
      · subst hra
        by_cases hi : F.indexes r
        · have hmark : ({ r with IsIndexed := true, UpdatedAt := now } : SyncedArticle) ∉ as :=
            hnotin _ rfl
          simp only [hi, and_true, if_true, hmark, false_and, if_false, List.mem_cons, true_or]
        · have : r ∉ as := hnotin _ rfl
          simp only [hi, and_false, if_false]
      · have hmem : r ∈ a :: as ↔ r ∈ as := by
          simp [hra]
        simp only [hra, false_and, if_false, hmem]
    · apply map_keys_WF _ _ _ _ hWF
      · intro r
        split
        · rename_i h
          rw [h.1]
        · rfl
      · intro r
        split
        · rename_i h
          rw [h.1]
        · rfl
    · intro x hx
      have hxa : x ≠ a := fun h => hnotin x (by rw [h]) hx
      refine List.mem_map.2 ⟨x, hsub x (List.mem_cons_of_mem _ hx), ?_⟩
      simp only [hxa, false_and, if_false]
    · exact hnd

/-- The value of `IndexPendingArticles` on a table that respects its keys. -/
theorem IndexPendingArticles_eq (F : Faults) (now : Nat) (rows : List SyncedArticle) (hWF : ArticlesWF rows)
    (hq : F.queryPending = false) :
    IndexPendingArticles F now rows =
      .ok (rows.map (fun r =>
        if r.IsIndexed = false ∧ F.indexes r then { r with IsIndexed := true, UpdatedAt := now } else r)) := by
  unfold IndexPendingArticles
  simp only [hq, if_false, Bool.false_eq_true]
  have hmemf : ∀ r, r ∈ rows.filter (fun a => a.IsIndexed = false) ↔
      r ∈ rows ∧ r.IsIndexed = false := by
    intro r
    rw [List.mem_filter]
    simp
  by_cases hlen : (rows.filter (fun a => a.IsIndexed = false)).length = 0
  · rw [if_pos hlen]
    congr 1
    conv_lhs => rw [← List.map_id rows]
    apply List.map_congr_left
    intro r hr
    have hnil := List.length_eq_zero.1 hlen
    have : ¬ r.IsIndexed = false := by
      intro h
      have := (hmemf r).2 ⟨hr, h⟩
      rw [hnil] at this
      exact List.not_mem_nil _ this
    rw [if_neg (fun h => this h.1)]
    rfl
  · rw [if_neg hlen]
    congr 1
    rw [indexLoop_eq F now _ rows hWF (fun a ha => ((hmemf a).1 ha).1)
      ((hWF.2.1).sublist ((List.filter_sublist _).map _))]
    apply List.map_congr_left
    intro r hr
    simp only [hmemf, hr, true_and]

theorem IndexPendingArticles_WF (F : Faults) (now : Nat) (rows rows' : List SyncedArticle)
    (hWF : ArticlesWF rows) (h : IndexPendingArticles F now rows = .ok rows') : ArticlesWF rows' := by
  by_cases hq : F.queryPending = true
  · simp [IndexPendingArticles, hq] at h
  · rw [IndexPendingArticles_eq F now rows hWF (by simpa using hq)] at h
    injection h with h
    subst h
    apply map_keys_WF _ _ _ _ hWF
    · intro r
      split <;> rfl
    · intro r
      split <;> rfl

/-- C5 as stated fails on its last clause: in a pass at time 9 with a healthy backend, the two
pending records, last saved at time 3, end with `IsIndexed = true` and also with
`UpdatedAt = 9`, so the pass does not leave every other field of every record unchanged. -/
theorem C5_counterexample :
    IndexPendingArticles Faults.healthy 9 replicaTwoPending =
      .ok [mkRow 1 11 "t1" "c1" true,
           { mkRow 2 12 "t2" "c2" true with UpdatedAt := 9 },
           { mkRow 3 13 "t3" "c3" true with UpdatedAt := 9 }] ∧
    (mkRow 2 12 "t2" "c2" false).UpdatedAt = 3 ∧
    IndexPendingArticles Faults.healthy 9 replicaTwoPending ≠
      .ok (replicaTwoPending.map (fun r =>
        if r.IsIndexed = false then { r with IsIndexed := true } else r)) := by
  refine ⟨rfl, rfl, ?_⟩
  intro h
  have h9 : IndexPendingArticles Faults.healthy 9 replicaTwoPending =
      .ok [mkRow 1 11 "t1" "c1" true,
           { mkRow 2 12 "t2" "c2" true with UpdatedAt := 9 },
           { mkRow 3 13 "t3" "c3" true with UpdatedAt := 9 }] := rfl
  rw [h9] at h
  injection h with h
  revert h
  decide

/-- C5 (amended): on a replica that respects its keys, when the replica store answers (the
pending query and the final saves succeed), one `IndexPendingArticles` pass at time `now` sets
`IsIndexed` to true on every pending record except those for which indexer construction or the
store call fails, writes `now` into `UpdatedAt` of the records it marks, and changes no other
field of any record.  Hence with a backend that succeeds for every record every record is
indexed after the pass, and otherwise exactly the pending records of the failing subset still
have `IsIndexed = false`. -/
theorem C5_index_pending (F : Faults) (now : Nat) (rows : List SyncedArticle)
    (hWF : ArticlesWF rows) (hq : F.queryPending = false)
    (hm : ∀ a, F.markIndexed a = false) :
    ∃ rows', IndexPendingArticles F now rows = .ok rows' ∧
      rows' = rows.map (fun r =>
        if r.IsIndexed = false ∧ F.newIndexer r = false ∧ F.indexContent r = false then
          { r with IsIndexed := true, UpdatedAt := now }
        else r) ∧
      ((∀ a, F.newIndexer a = false ∧ F.indexContent a = false) →
        ∀ r ∈ rows', r.IsIndexed = true) ∧
      (∀ r, (r ∈ rows' ∧ r.IsIndexed = false) ↔
        (r ∈ rows ∧ r.IsIndexed = false ∧
          (F.newIndexer r = true ∨ F.indexContent r = true))) := by
  have heq : rows.map (fun r =>
        if r.IsIndexed = false ∧ F.indexes r then { r with IsIndexed := true, UpdatedAt := now }
        else r) =
      rows.map (fun r =>
        if r.IsIndexed = false ∧ F.newIndexer r = false ∧ F.indexContent r = false then
          { r with IsIndexed := true, UpdatedAt := now }
        else r) := by
    apply List.map_congr_left
    intro r _
    simp only [Faults.indexes, hm, and_true]
  refine ⟨_, IndexPendingArticles_eq F now rows hWF hq, heq, ?_, ?_⟩
  · intro hb r hr
    rw [heq] at hr
    obtain ⟨r0, -, rfl⟩ := List.mem_map.1 hr
    by_cases h0 : r0.IsIndexed = false
    · rw [if_pos ⟨h0, hb r0⟩]
    · rw [if_neg (fun h => h0 h.1)]
      simpa using h0
  · intro r
    rw [heq]
    constructor
    · rintro ⟨hr, hf⟩
      obtain ⟨r0, hr0, rfl⟩ := List.mem_map.1 hr
      by_cases hc : r0.IsIndexed = false ∧ F.newIndexer r0 = false ∧ F.indexContent r0 = false
      · rw [if_pos hc] at hf
        cases hf
      · rw [if_neg hc] at hf ⊢
        refine ⟨hr0, hf, ?_⟩
        by_contra hno
        simp only [not_or, Bool.not_eq_true] at hno
        exact hc ⟨hf, hno.1, hno.2⟩
    · rintro ⟨hr, hf, hfail⟩
      refine ⟨List.mem_map.2 ⟨r, hr, ?_⟩, hf⟩
      rw [if_neg]
      rintro ⟨-, h1, h2⟩
      rcases hfail with h | h
      · rw [h1] at h
        cases h
      · rw [h2] at h
        cases h

/-- C5 (amended) on a replica with two pending records, in a pass at time 9 in which the store
call fails for the record with local id 2: that record alone stays pending and keeps its
`UpdatedAt`, the other pending record is marked and stamped. -/
theorem C5_index_pending_witness :
    IndexPendingArticles storeCallFailsFor2 9 replicaTwoPending =
      .ok [mkRow 1 11 "t1" "c1" true, mkRow 2 12 "t2" "c2" false,
           { mkRow 3 13 "t3" "c3" true with UpdatedAt := 9 }] ∧
    ArticlesWF replicaTwoPending ∧
    ∃ rows', IndexPendingArticles storeCallFailsFor2 9 replicaTwoPending = .ok rows' ∧
      rows' = replicaTwoPending.map (fun r =>
        if r.IsIndexed = false ∧ storeCallFailsFor2.newIndexer r = false ∧
            storeCallFailsFor2.indexContent r = false then
          { r with IsIndexed := true, UpdatedAt := 9 }
        else r) ∧
      ((∀ a, storeCallFailsFor2.newIndexer a = false ∧
          storeCallFailsFor2.indexContent a = false) →
        ∀ r ∈ rows', r.IsIndexed = true) ∧
      (∀ r, (r ∈ rows' ∧ r.IsIndexed = false) ↔
        (r ∈ replicaTwoPending ∧ r.IsIndexed = false ∧
          (storeCallFailsFor2.newIndexer r = true ∨
            storeCallFailsFor2.indexContent r = true))) :=
  ⟨rfl, by decide,
    C5_index_pending storeCallFailsFor2 9 replicaTwoPending (by decide) rfl (fun _ => rfl)⟩

/-! ## The watermark step -/

theorem watermark_finishCycle (F : Faults) (now : Nat) (rows : List SyncedArticle)
    (states states' : List SyncState) (s : SyncState) (hs : s.TableName = tableName)
    (h : saveState states s = some states') :
    watermark (finishCycle F now rows states').db = s.LastUtime := by
  obtain ⟨x, hx, hxl⟩ := saveState_find states states' s hs h
  simp only [watermark, finishCycle, hx]
  exact hxl

/-- On a sync-state table that respects its keys, saving the state that was read succeeds. -/
theorem saveState_ok (F : Faults) (states : List SyncState) (m : Int) (now : Nat)
    (hWF : StatesWF states) (hr : F.readState = false) :
    ∃ states', saveState states
      { readSyncState F states with LastUtime := m, UpdatedAt := now } = some states' := by
  obtain ⟨hnz, hids, hnames⟩ := hWF
  unfold readSyncState
  simp only [hr, if_false, Bool.false_eq_true]
  cases hfind : states.find? (fun s => s.TableName = tableName) with
  | none =>
    have hex : ¬ ∃ r ∈ states, r.TableName = tableName := by
      rintro ⟨r, hr', hrt⟩
      have := List.find?_eq_none.1 hfind r hr'
      simp [hrt] at this
    simp only [saveState, createState, if_true]
    rw [if_neg hex]
    exact ⟨_, rfl⟩
  | some s0 =>
    have hmem : s0 ∈ states := List.mem_of_find?_eq_some hfind
    have ht : s0.TableName = tableName := by simpa using List.find?_some hfind
    simp only [saveState]
    rw [if_neg (hnz s0 hmem), if_pos ⟨s0, hmem, rfl⟩, if_neg]
    · exact ⟨_, rfl⟩
    · rintro ⟨r, hr', hne, he⟩
      exact hne (by rw [List.inj_on_of_nodup_map hnames hr' hmem he])

/-- The running maximum from 0 over a list with a positive element is the maximum. -/
theorem runMax_isMax (l : List PublishedArticle) (hpos : ∃ e ∈ l, 0 < e.Utime) :
    0 < l.foldl (fun m e => if e.Utime > m then e.Utime else m) 0 ∧
      IsMaxUtime (l.foldl (fun m e => if e.Utime > m then e.Utime else m) 0) l := by
  obtain ⟨e, he, hepos⟩ := hpos
  have hge := runMax_ge_mem l 0 e he
  have hpos : 0 < l.foldl (fun m e => if e.Utime > m then e.Utime else m) 0 := by omega
  refine ⟨hpos, ?_, runMax_ge_mem l 0⟩
  rcases runMax_mem l 0 with h | h
  · omega
  · exact h

theorem IsMaxUtime_unique {m m' : Int} {l : List PublishedArticle} (h : IsMaxUtime m l)
    (h' : IsMaxUtime m' l) : m = m' := by
  obtain ⟨⟨e, he, hem⟩, hle⟩ := h
  obtain ⟨⟨e', he', hem'⟩, hle'⟩ := h'
  have := hle e' he'
  have := hle' e he
  omega

/-- A cycle with candidates ends either in step 5 or with the error of step 4. -/
theorem SyncArticles_candidates (F : Faults) (now : Nat) (ext : List PublishedArticle) (db : DB)
    (hq : F.queryExternal = false) (hc : candidates F ext db ≠ []) :
    (∃ states', SyncArticles F now ext db =
      finishCycle F now (upsertLoop F now (candidates F ext db) db.articles 0).1 states') ∨
    SyncArticles F now ext db =
      { db :=
          { articles := (upsertLoop F now (candidates F ext db) db.articles 0).1
            states := db.states }
        err := some SyncError.updateSyncState
        steps := [Step.upsert, Step.watermark] } := by
  unfold candidates at hc ⊢
  by_cases hm : (upsertLoop F now (queryPublished ext (readSyncState F db.states).LastUtime)
      db.articles 0).2 > 0
  · cases hs : (if F.saveState then none
        else saveState db.states
          { readSyncState F db.states with
            LastUtime := (upsertLoop F now
              (queryPublished ext (readSyncState F db.states).LastUtime) db.articles 0).2
            UpdatedAt := now }) with
    | none => exact Or.inr (SyncArticles_saveFailed F now ext db hq hc hm hs)
    | some states' => exact Or.inl ⟨states', SyncArticles_saved F now ext db states' hq hc hm hs⟩
  · exact Or.inl ⟨db.states, SyncArticles_noAdvance F now ext db hq hc hm⟩

/-- When the store answers and the state table respects its keys, a cycle with candidates
reaches step 5. -/
theorem SyncArticles_storeOK (F : Faults) (now : Nat) (ext : List PublishedArticle) (db : DB)
    (hF : F.storeOK) (hWF : StatesWF db.states) (hc : candidates F ext db ≠ []) :
    ∃ states', SyncArticles F now ext db =
      finishCycle F now (upsertLoop F now (candidates F ext db) db.articles 0).1 states' := by
  obtain ⟨hr, hq, -, -, -, hsv, -, -⟩ := hF
  unfold candidates at hc ⊢
  by_cases hm : (upsertLoop F now (queryPublished ext (readSyncState F db.states).LastUtime)
      db.articles 0).2 > 0
  · obtain ⟨states', hs⟩ := saveState_ok F db.states
      (upsertLoop F now (queryPublished ext (readSyncState F db.states).LastUtime)
        db.articles 0).2 now hWF hr
    exact ⟨states', SyncArticles_saved F now ext db states' hq hc hm
      (by simp only [hsv]; exact hs)⟩
  · exact ⟨db.states, SyncArticles_noAdvance F now ext db hq hc hm⟩

theorem upsertLoop_snd_pos (F : Faults) (now : Nat) (cands : List PublishedArticle)
    (rows : List SyncedArticle) (h : ∃ e ∈ upserted F now cands rows, 0 < e.Utime) :
    (upsertLoop F now cands rows 0).2 > 0 := by
  rw [upsertLoop_snd]
  exact (runMax_isMax _ h).1

/-- A cycle without error in which a candidate with positive `Utime` was upserted persists the
maximum `Utime` over the upserted candidates. -/
theorem watermark_isMax_upserted (F : Faults) (now : Nat) (ext : List PublishedArticle) (db : DB)
    (hq : F.queryExternal = false) (hc : candidates F ext db ≠ [])
    (hpos : ∃ e ∈ upserted F now (candidates F ext db) db.articles, 0 < e.Utime)
    (herr : (SyncArticles F now ext db).err = none) :
    IsMaxUtime (watermark (SyncArticles F now ext db).db)
      (upserted F now (candidates F ext db) db.articles) := by
  unfold candidates at hc hpos ⊢
  have hm := upsertLoop_snd_pos F now _ _ hpos
  cases hs : (if F.saveState then none
      else saveState db.states
        { readSyncState F db.states with
          LastUtime := (upsertLoop F now
            (queryPublished ext (readSyncState F db.states).LastUtime) db.articles 0).2
          UpdatedAt := now }) with
  | none =>
    rw [SyncArticles_saveFailed F now ext db hq hc hm hs] at herr
    cases herr
  | some states' =>
    rw [SyncArticles_saved F now ext db states' hq hc hm hs]
    by_cases hsv : F.saveState = true
    · simp [hsv] at hs
    · simp only [hsv, if_false, Bool.false_eq_true] at hs
      rw [watermark_finishCycle F now _ db.states states' _
        (by exact readSyncState_tableName F db.states) hs]
      simp only []
      rw [upsertLoop_snd]
      exact (runMax_isMax _ hpos).2

/-- When no store call fails, the tables respect their keys and the stored watermark is not
negative, a cycle with candidates upserts all of them, returns no error and persists the
maximum `Utime` over all candidates. -/
theorem healthy_watermark (F : Faults) (now : Nat) (ext : List PublishedArticle) (db : DB)
    (hF : F.storeOK) (hWF : db.WF) (hw : 0 ≤ watermark db) (hc : candidates F ext db ≠ []) :
    upserted F now (candidates F ext db) db.articles = candidates F ext db ∧
    (SyncArticles F now ext db).err = none ∧
    IsMaxUtime (watermark (SyncArticles F now ext db).db) (candidates F ext db) := by
  have hall := upserted_all F now (candidates F ext db) db.articles hWF.1 hF.2.2.1 hF.2.2.2.1
    hF.2.2.2.2.1
  have hpos : ∃ e ∈ upserted F now (candidates F ext db) db.articles, 0 < e.Utime := by
    rw [hall]
    obtain ⟨e, he⟩ := List.exists_mem_of_ne_nil _ hc
    refine ⟨e, he, ?_⟩
    have := (mem_queryPublished.1 he).2.2
    rw [readSyncState_lastUtime F db hF.1] at this
    omega
  have herr : (SyncArticles F now ext db).err = none := by
    obtain ⟨states', h⟩ := SyncArticles_storeOK F now ext db hF hWF.2 hc
    rw [h]
    rfl
  refine ⟨hall, herr, ?_⟩
  have := watermark_isMax_upserted F now ext db hF.2.1 hc hpos herr
  rw [hall] at this
  exact this

/-- C2 as stated fails: of two candidates updated at 100 and 200, the `Create` of the second
fails; the cycle persists 100, which is not the maximum `Utime` over the candidates. -/
theorem C2_counterexample :
    candidates createFailsFor2 twoPublished emptyDB = twoPublished ∧
    watermark (SyncArticles createFailsFor2 5 twoPublished emptyDB).db = 100 ∧
    ¬ IsMaxUtime (watermark (SyncArticles createFailsFor2 5 twoPublished emptyDB).db)
        (candidates createFailsFor2 twoPublished emptyDB) := by
  decide

/-- C2 (amended): in a cycle whose query returns at least one candidate, if the cycle returns
no error and the upsert of at least one candidate with a positive `Utime` succeeded, the
watermark persisted at the end is the maximum `Utime` over the candidates whose upsert
succeeded; otherwise the sync-state table is left as it was.  When no store call fails, the
tables respect their keys and the stored watermark is not negative, every candidate is upserted
and the persisted watermark is the maximum `Utime` over all candidates. -/
theorem C2_watermark_persisted (F : Faults) (now : Nat) (ext : List PublishedArticle) (db : DB)
    (hq : F.queryExternal = false) (hc : candidates F ext db ≠ []) :
    ((SyncArticles F now ext db).err = none →
      (∃ e ∈ upserted F now (candidates F ext db) db.articles, 0 < e.Utime) →
      IsMaxUtime (watermark (SyncArticles F now ext db).db)
        (upserted F now (candidates F ext db) db.articles)) ∧
    (((SyncArticles F now ext db).err ≠ none ∨
        ¬ ∃ e ∈ upserted F now (candidates F ext db) db.articles, 0 < e.Utime) →
      (SyncArticles F now ext db).db.states = db.states) ∧
    (F.storeOK → db.WF → 0 ≤ watermark db →
      upserted F now (candidates F ext db) db.articles = candidates F ext db ∧
      (SyncArticles F now ext db).err = none ∧
      IsMaxUtime (watermark (SyncArticles F now ext db).db) (candidates F ext db)) := by
  refine ⟨fun herr hpos => watermark_isMax_upserted F now ext db hq hc hpos herr, ?_,
    fun hF hWF hw => healthy_watermark F now ext db hF hWF hw hc⟩
  intro h
  rcases SyncArticles_candidates F now ext db hq hc with ⟨states', hfin⟩ | hfail
  · by_cases hm : (upsertLoop F now (candidates F ext db) db.articles 0).2 > 0
    · exfalso
      rcases h with h | h
      · rw [hfin] at h
        exact h rfl
      · apply h
        rw [upsertLoop_snd] at hm
        rcases runMax_mem (upserted F now (candidates F ext db) db.articles) 0
          with h0 | ⟨e, he, hem⟩
        · omega
        · exact ⟨e, he, by omega⟩
    · rw [SyncArticles_noAdvance F now ext db hq hc hm]
      rfl
  · rw [hfail]

/-- C2 (amended) on two candidates updated at 100 and 200 in an environment without faults:
both are upserted and the persisted watermark is 200. -/
theorem C2_watermark_persisted_witness :
    Faults.healthy.queryExternal = false ∧ candidates Faults.healthy twoPublished emptyDB ≠ [] ∧
    watermark (SyncArticles Faults.healthy 5 twoPublished emptyDB).db = 200 ∧
    (((SyncArticles Faults.healthy 5 twoPublished emptyDB).err = none →
      (∃ e ∈ upserted Faults.healthy 5 (candidates Faults.healthy twoPublished emptyDB)
        emptyDB.articles, 0 < e.Utime) →
      IsMaxUtime (watermark (SyncArticles Faults.healthy 5 twoPublished emptyDB).db)
        (upserted Faults.healthy 5 (candidates Faults.healthy twoPublished emptyDB)
          emptyDB.articles)) ∧
    (((SyncArticles Faults.healthy 5 twoPublished emptyDB).err ≠ none ∨
        ¬ ∃ e ∈ upserted Faults.healthy 5 (candidates Faults.healthy twoPublished emptyDB)
          emptyDB.articles, 0 < e.Utime) →
      (SyncArticles Faults.healthy 5 twoPublished emptyDB).db.states = emptyDB.states) ∧
    (Faults.healthy.storeOK → emptyDB.WF → 0 ≤ watermark emptyDB →
      upserted Faults.healthy 5 (candidates Faults.healthy twoPublished emptyDB)
        emptyDB.articles = candidates Faults.healthy twoPublished emptyDB ∧
      (SyncArticles Faults.healthy 5 twoPublished emptyDB).err = none ∧
      IsMaxUtime (watermark (SyncArticles Faults.healthy 5 twoPublished emptyDB).db)
        (candidates Faults.healthy twoPublished emptyDB))) :=
  ⟨rfl, by decide, by decide,
    C2_watermark_persisted Faults.healthy 5 twoPublished emptyDB rfl (by decide)⟩

/-! ## The indexing pass inside a cycle -/

theorem finishCycle_all_indexed (F : Faults) (now : Nat) (rows : List SyncedArticle)
    (states : List SyncState) (hWF : ArticlesWF rows) (hq : F.queryPending = false)
    (hi : ∀ a, F.indexes a) : ∀ r ∈ (finishCycle F now rows states).db.articles, r.IsIndexed = true := by
  intro r hr
  simp only [finishCycle, IndexPendingArticles_eq F now rows hWF hq] at hr
  obtain ⟨r0, -, rfl⟩ := List.mem_map.1 hr
  by_cases h0 : r0.IsIndexed = false
  · rw [if_pos ⟨h0, hi r0⟩]
  · rw [if_neg (fun h => h0 h.1)]
    simpa using h0

/-- C6 as stated fails: with one pending record and nothing new in the external table, the
query succeeds, the cycle goes through no step at all and the record stays pending, although
one indexing pass on the same replica would index it. -/
theorem C6_counterexample :
    Faults.healthy.queryExternal = false ∧
    candidates Faults.healthy nothingNew pendingDB = [] ∧
    (SyncArticles Faults.healthy 5 nothingNew pendingDB).steps.count Step.indexing = 0 ∧
    (SyncArticles Faults.healthy 5 nothingNew pendingDB).db.articles =
      [mkRow 1 11 "t1" "c1" false] ∧
    IndexPendingArticles Faults.healthy 5 pendingDB.articles =
      .ok [{ mkRow 1 11 "t1" "c1" true with UpdatedAt := 5 }] :=
  ⟨rfl, by decide, by decide, by decide, rfl⟩

/-- C6 (amended): a sync cycle whose external query succeeds runs an indexing pass only if the
query returned at least one candidate.  With no candidate it returns at once: no step is run
and the database is unchanged, so a pending record is not re-attempted.  With candidates it
runs exactly one indexing pass, after the watermark step, on the rows left by the upsert step,
unless saving the sync state fails, in which case it returns that error without indexing.
With candidates, a store and a backend that answer and tables that respect their keys, every
replica record, older pending ones included, is indexed at the end of the cycle. -/
theorem C6_indexing_pass (F : Faults) (now : Nat) (ext : List PublishedArticle) (db : DB)
    (hq : F.queryExternal = false) :
    (candidates F ext db = [] →
      SyncArticles F now ext db = { db := db, err := none, steps := [] }) ∧
    (candidates F ext db ≠ [] → (SyncArticles F now ext db).err = none →
      (SyncArticles F now ext db).steps = [Step.upsert, Step.watermark, Step.indexing] ∧
      ∀ rows', IndexPendingArticles F now (upsertLoop F now (candidates F ext db) db.articles 0).1
          = .ok rows' → (SyncArticles F now ext db).db.articles = rows') ∧
    (candidates F ext db ≠ [] → (SyncArticles F now ext db).err ≠ none →
      (SyncArticles F now ext db).err = some SyncError.updateSyncState ∧
      (SyncArticles F now ext db).steps = [Step.upsert, Step.watermark] ∧
      (SyncArticles F now ext db).db.articles =
        (upsertLoop F now (candidates F ext db) db.articles 0).1) ∧
    (candidates F ext db ≠ [] → F.storeOK → F.backendOK → db.WF →
      (SyncArticles F now ext db).err = none ∧
      ∀ r ∈ (SyncArticles F now ext db).db.articles, r.IsIndexed = true) := by
  refine ⟨fun hc => SyncArticles_noCandidates F now ext db hq hc, ?_, ?_, ?_⟩
  · intro hc herr
    rcases SyncArticles_candidates F now ext db hq hc with ⟨states', h⟩ | h
    · rw [h]
      refine ⟨rfl, ?_⟩
      intro rows' hrows
      simp only [finishCycle, hrows]
    · rw [h] at herr
      cases herr
  · intro hc herr
    rcases SyncArticles_candidates F now ext db hq hc with ⟨states', h⟩ | h
    · rw [h] at herr
      exact absurd rfl herr
    · rw [h]
      exact ⟨rfl, rfl, rfl⟩
  · intro hc hF hB hWF
    obtain ⟨states', h⟩ := SyncArticles_storeOK F now ext db hF hWF.2 hc
    rw [h]
    refine ⟨rfl, ?_⟩
    apply finishCycle_all_indexed F now _ _ (upsertLoop_WF F now _ _ _ hWF.1) hF.2.2.2.2.2.2.1
    intro a
    exact ⟨hB.1 a, hB.2 a, hF.2.2.2.2.2.2.2 a⟩

/-- C6 (amended) on `pendingDB`: with nothing new the pending record stays pending; with one
new external article the cycle runs its indexing pass and the old pending record is indexed
too. -/
theorem C6_indexing_pass_witness :
    Faults.healthy.queryExternal = false ∧
    (SyncArticles Faults.healthy 5 oneNew pendingDB).db.articles =
      [{ mkRow 1 11 "t1" "c1" true with UpdatedAt := 5 },
       { ID := 2, ExternalID := 12, AuthorID := 1, Title := "title", Content := "c2",
         Status := 2, ExternalCtime := 1, ExternalUtime := 30, IsIndexed := true,
         CreatedAt := 5, UpdatedAt := 5 }] ∧
    ((candidates Faults.healthy oneNew pendingDB = [] →
      SyncArticles Faults.healthy 5 oneNew pendingDB =
        { db := pendingDB, err := none, steps := [] }) ∧
    (candidates Faults.healthy oneNew pendingDB ≠ [] →
      (SyncArticles Faults.healthy 5 oneNew pendingDB).err = none →
      (SyncArticles Faults.healthy 5 oneNew pendingDB).steps =
        [Step.upsert, Step.watermark, Step.indexing] ∧
      ∀ rows', IndexPendingArticles Faults.healthy 5
          (upsertLoop Faults.healthy 5 (candidates Faults.healthy oneNew pendingDB)
            pendingDB.articles 0).1 = .ok rows' →
        (SyncArticles Faults.healthy 5 oneNew pendingDB).db.articles = rows') ∧
    (candidates Faults.healthy oneNew pendingDB ≠ [] →
      (SyncArticles Faults.healthy 5 oneNew pendingDB).err ≠ none →
      (SyncArticles Faults.healthy 5 oneNew pendingDB).err = some SyncError.updateSyncState ∧
      (SyncArticles Faults.healthy 5 oneNew pendingDB).steps = [Step.upsert, Step.watermark] ∧
      (SyncArticles Faults.healthy 5 oneNew pendingDB).db.articles =
        (upsertLoop Faults.healthy 5 (candidates Faults.healthy oneNew pendingDB)
          pendingDB.articles 0).1) ∧
    (candidates Faults.healthy oneNew pendingDB ≠ [] → Faults.healthy.storeOK →
      Faults.healthy.backendOK → pendingDB.WF →
      (SyncArticles Faults.healthy 5 oneNew pendingDB).err = none ∧
      ∀ r ∈ (SyncArticles Faults.healthy 5 oneNew pendingDB).db.articles,
        r.IsIndexed = true)) :=
  ⟨rfl, by decide, C6_indexing_pass Faults.healthy 5 oneNew pendingDB rfl⟩

/-! ## What a cycle leaves in the replica -/

theorem healthy_storeOK : Faults.healthy.storeOK :=
  ⟨rfl, rfl, fun _ => rfl, fun _ => rfl, fun _ => rfl, rfl, rfl, fun _ => rfl⟩

theorem healthy_backendOK : Faults.healthy.backendOK := ⟨fun _ => rfl, fun _ => rfl⟩

theorem storeCallFailsFor2_storeOK : storeCallFailsFor2.storeOK :=
  ⟨rfl, rfl, fun _ => rfl, fun _ => rfl, fun _ => rfl, rfl, rfl, fun _ => rfl⟩

/-- Step 5 keeps every row, at most turning its flag to true. -/
theorem finishCycle_mem (F : Faults) (now : Nat) (rows : List SyncedArticle) (states : List SyncState)
    (hWF : ArticlesWF rows) :
    (∀ r ∈ (finishCycle F now rows states).db.articles,
      ∃ r0 ∈ rows, r = r0 ∨ r = { r0 with IsIndexed := true, UpdatedAt := now }) ∧
    (∀ r0 ∈ rows, ∃ r ∈ (finishCycle F now rows states).db.articles,
      r = r0 ∨ r = { r0 with IsIndexed := true, UpdatedAt := now }) := by
  by_cases hq : F.queryPending = true
  · have : (finishCycle F now rows states).db.articles = rows := by
      simp [finishCycle, IndexPendingArticles, hq]
    rw [this]
    exact ⟨fun r hr => ⟨r, hr, Or.inl rfl⟩, fun r hr => ⟨r, hr, Or.inl rfl⟩⟩
  · have : (finishCycle F now rows states).db.articles = rows.map (fun r =>
        if r.IsIndexed = false ∧ F.indexes r then { r with IsIndexed := true, UpdatedAt := now } else r) := by
      simp only [finishCycle, IndexPendingArticles_eq F now rows hWF (by simpa using hq)]
    rw [this]
    constructor
    · intro r hr
      obtain ⟨r0, hr0, rfl⟩ := List.mem_map.1 hr
      refine ⟨r0, hr0, ?_⟩
      split
      · exact Or.inr rfl
      · exact Or.inl rfl
    · intro r0 hr0
      refine ⟨_, List.mem_map.2 ⟨r0, hr0, rfl⟩, ?_⟩
      split
      · exact Or.inr rfl
      · exact Or.inl rfl

theorem applyExt_externalIDs (now : Nat) (e : PublishedArticle) (rows : List SyncedArticle) (x : Int) :
    x ∈ (applyExt now e rows).map (·.ExternalID) ↔ x ∈ rows.map (·.ExternalID) ∨ x = e.ID := by
  unfold applyExt
  by_cases hex : ∃ r ∈ rows, r.ExternalID = e.ID
  · rw [if_pos hex, List.map_map]
    have : ((fun r : SyncedArticle => r.ExternalID) ∘ fun r : SyncedArticle =>
        if r.ExternalID = e.ID then
          ({ r with
            Title := e.Title, Content := e.Content, Status := e.Status,
            ExternalUtime := e.Utime, IsIndexed := false, UpdatedAt := now } : SyncedArticle)
        else r) = fun r => r.ExternalID := by
      funext r
      simp only [Function.comp]
      split <;> rfl
    rw [this]
    constructor
    · exact Or.inl
    · rintro (h | h)
      · exact h
      · obtain ⟨r, hr, hre⟩ := hex
        exact List.mem_map.2 ⟨r, hr, by rw [h]; exact hre⟩
  · rw [if_neg hex]
    simp

theorem foldl_applyExt_externalIDs (now : Nat) (cands : List PublishedArticle) (rows : List SyncedArticle)
    (x : Int) :
    x ∈ (cands.foldl (fun rows e => applyExt now e rows) rows).map (·.ExternalID) ↔
      x ∈ rows.map (·.ExternalID) ∨ ∃ e ∈ cands, e.ID = x := by
  induction cands generalizing rows with
  | nil => simp
  | cons c cs ih =>
    rw [List.foldl_cons, ih, applyExt_externalIDs]
    constructor
    · rintro ((h | h) | ⟨e, he, hex⟩)
      · exact Or.inl h
      · exact Or.inr ⟨c, List.mem_cons_self _ _, h.symm⟩
      · exact Or.inr ⟨e, List.mem_cons_of_mem _ he, hex⟩
    · rintro (h | ⟨e, he, hex⟩)
      · exact Or.inl (Or.inl h)
      · rcases List.mem_cons.1 he with rfl | he
        · exact Or.inl (Or.inr hex.symm)
        · exact Or.inr ⟨e, he, hex⟩

theorem applyExt_status (now : Nat) (e : PublishedArticle) (rows : List SyncedArticle) (k : Nat)
    (hrows : ∀ r ∈ rows, r.Status = k) (he : e.Status = k) :
    ∀ r ∈ applyExt now e rows, r.Status = k := by
  intro r hr
  unfold applyExt at hr
  by_cases hex : ∃ r ∈ rows, r.ExternalID = e.ID
  · rw [if_pos hex] at hr
    obtain ⟨r0, hr0, rfl⟩ := List.mem_map.1 hr
    split
    · exact he
    · exact hrows r0 hr0
  · rw [if_neg hex] at hr
    rcases List.mem_append.1 hr with h | h
    · exact hrows r h
    · rw [List.mem_singleton.1 h]
      exact he

theorem foldl_applyExt_status (now : Nat) (cands : List PublishedArticle) (rows : List SyncedArticle)
    (k : Nat) (hrows : ∀ r ∈ rows, r.Status = k) (hc : ∀ e ∈ cands, e.Status = k) :
    ∀ r ∈ cands.foldl (fun rows e => applyExt now e rows) rows, r.Status = k := by
  induction cands generalizing rows with
  | nil => exact hrows
  | cons c cs ih =>
    rw [List.foldl_cons]
    exact ih _ (applyExt_status now c rows k hrows (hc c (List.mem_cons_self _ _)))
      (fun e he => hc e (List.mem_cons_of_mem _ he))

theorem candidates_healthy (F : Faults) (ext : List PublishedArticle) (db : DB)
    (hr : F.readState = false) : candidates F ext db = queryPublished ext (watermark db) := by
  unfold candidates
  rw [readSyncState_lastUtime F db hr]

/-- C7: when no store call fails in either run, the tables respect their keys and the stored
watermark is not negative, a second `SyncArticles` over the unchanged external table finds no
candidate and leaves the replica records and the sync state exactly as the first run left
them. -/
theorem C7_second_run_noop (F1 F2 : Faults) (now1 now2 : Nat) (ext : List PublishedArticle)
    (db : DB) (h1 : F1.storeOK) (h2 : F2.storeOK) (hWF : db.WF) (hw : 0 ≤ watermark db) :
    SyncArticles F2 now2 ext (SyncArticles F1 now1 ext db).db =
        { db := (SyncArticles F1 now1 ext db).db, err := none, steps := [] } ∧
    (SyncArticles F2 now2 ext (SyncArticles F1 now1 ext db).db).db.articles =
        (SyncArticles F1 now1 ext db).db.articles ∧
    watermark (SyncArticles F2 now2 ext (SyncArticles F1 now1 ext db).db).db =
        watermark (SyncArticles F1 now1 ext db).db := by
  have hnoop : SyncArticles F2 now2 ext (SyncArticles F1 now1 ext db).db =
      { db := (SyncArticles F1 now1 ext db).db, err := none, steps := [] } := by
    apply SyncArticles_noCandidates F2 now2 ext _ h2.2.1
    show candidates F2 ext (SyncArticles F1 now1 ext db).db = []
    rw [candidates_healthy F2 ext _ h2.1]
    by_cases hc : candidates F1 ext db = []
    · rw [SyncArticles_noCandidates F1 now1 ext db h1.2.1 hc]
      rw [candidates_healthy F1 ext db h1.1] at hc
      exact hc
    · obtain ⟨-, -, hmax⟩ := healthy_watermark F1 now1 ext db h1 hWF hw hc
      rw [List.eq_nil_iff_forall_not_mem]
      intro e he
      obtain ⟨hext, hst, hut⟩ := mem_queryPublished.1 he
      have hle := watermark_le_cycle F1 now1 ext db
      have hmem : e ∈ candidates F1 ext db := by
        rw [candidates_healthy F1 ext db h1.1]
        exact mem_queryPublished.2 ⟨hext, hst, by omega⟩
      have := hmax.2 e hmem
      omega
  rw [hnoop]
  exact ⟨rfl, rfl, rfl⟩

/-- C7 on an empty database and an external table with two published articles and a draft; in
the first run the vector backend refuses one store call, so one record is left pending, and the
second run leaves it so. -/
theorem C7_second_run_noop_witness :
    storeCallFailsFor2.storeOK ∧ Faults.healthy.storeOK ∧ emptyDB.WF ∧ 0 ≤ watermark emptyDB ∧
    (SyncArticles storeCallFailsFor2 5 twoPublishedOneDraft emptyDB).db =
      { articles :=
          [{ ID := 1, ExternalID := 1, AuthorID := 1, Title := "title", Content := "first",
             Status := 2, ExternalCtime := 1, ExternalUtime := 100, IsIndexed := true,
             CreatedAt := 5, UpdatedAt := 5 },
           { ID := 2, ExternalID := 2, AuthorID := 1, Title := "title", Content := "second",
             Status := 2, ExternalCtime := 1, ExternalUtime := 200, IsIndexed := false,
             CreatedAt := 5, UpdatedAt := 5 }]
        states :=
          [{ ID := 1, TableName := "published_articles", LastUtime := 200, UpdatedAt := 5 }] } ∧
    (SyncArticles Faults.healthy 9 twoPublishedOneDraft
        (SyncArticles storeCallFailsFor2 5 twoPublishedOneDraft emptyDB).db =
        { db := (SyncArticles storeCallFailsFor2 5 twoPublishedOneDraft emptyDB).db,
          err := none, steps := [] } ∧
    (SyncArticles Faults.healthy 9 twoPublishedOneDraft
        (SyncArticles storeCallFailsFor2 5 twoPublishedOneDraft emptyDB).db).db.articles =
        (SyncArticles storeCallFailsFor2 5 twoPublishedOneDraft emptyDB).db.articles ∧
    watermark (SyncArticles Faults.healthy 9 twoPublishedOneDraft
        (SyncArticles storeCallFailsFor2 5 twoPublishedOneDraft emptyDB).db).db =
        watermark (SyncArticles storeCallFailsFor2 5 twoPublishedOneDraft emptyDB).db) :=
  ⟨storeCallFailsFor2_storeOK, healthy_storeOK, by decide, by decide, by decide,
    C7_second_run_noop storeCallFailsFor2 Faults.healthy 5 9 twoPublishedOneDraft emptyDB
      storeCallFailsFor2_storeOK healthy_storeOK (by decide) (by decide)⟩

/-- C8: starting from a stored watermark `w ≥ 0` and an empty replica, after one sync cycle in
which no store call fails, the external ids in the replica are exactly the ids of the external
records with status 2 and `Utime > w`, every replica record has status 2, and the watermark is
the largest `Utime` among those records (it stays `w` when there is none). -/
theorem C8_first_cycle (F : Faults) (now : Nat) (ext : List PublishedArticle) (db : DB)
    (hF : F.storeOK) (hempty : db.articles = []) (hS : StatesWF db.states)
    (hw : 0 ≤ watermark db) :
    (∀ x, x ∈ (SyncArticles F now ext db).db.articles.map (·.ExternalID) ↔
      ∃ e ∈ ext, e.ID = x ∧ e.Status = statusPublished ∧ e.Utime > watermark db) ∧
    (∀ r ∈ (SyncArticles F now ext db).db.articles, r.Status = statusPublished) ∧
    (∀ m, IsMaxUtime m
        (ext.filter (fun e => e.Status = statusPublished ∧ e.Utime > watermark db)) →
      watermark (SyncArticles F now ext db).db = m) ∧
    (ext.filter (fun e => e.Status = statusPublished ∧ e.Utime > watermark db) = [] →
      watermark (SyncArticles F now ext db).db = watermark db) := by
  have hWFa : ArticlesWF db.articles := by
    rw [hempty]
    decide
  have hcand : ∀ e, e ∈ candidates F ext db ↔
      e ∈ ext.filter (fun e => e.Status = statusPublished ∧ e.Utime > watermark db) := by
    intro e
    rw [candidates_healthy F ext db hF.1, mem_queryPublished, List.mem_filter]
    simp
  have hfilter : ext.filter (fun e => e.Status = statusPublished ∧ e.Utime > watermark db)
      = [] → candidates F ext db = [] := by
    intro h
    rw [List.eq_nil_iff_forall_not_mem]
    intro e he
    rw [hcand, h] at he
    exact List.not_mem_nil _ he
  by_cases hc : candidates F ext db = []
  · rw [SyncArticles_noCandidates F now ext db hF.2.1 hc]
    simp only [hempty, List.map_nil, List.not_mem_nil, false_iff, not_exists, not_and,
      false_implies, implies_true, true_and]
    refine ⟨?_, ?_⟩
    · intro x e he hx hst hut
      have : e ∈ candidates F ext db := by
        rw [candidates_healthy F ext db hF.1]
        exact mem_queryPublished.2 ⟨he, hst, hut⟩
      rw [hc] at this
      exact List.not_mem_nil _ this
    · refine ⟨?_, trivial⟩
      intro m hm
      obtain ⟨⟨e, he, -⟩, -⟩ := hm
      rw [← hcand, hc] at he
      exact absurd he (List.not_mem_nil _)
  · obtain ⟨hall, -, hmax⟩ := healthy_watermark F now ext db hF ⟨hWFa, hS⟩ hw hc
    obtain ⟨states', hfin⟩ := SyncArticles_storeOK F now ext db hF hS hc
    have hrows : (upsertLoop F now (candidates F ext db) db.articles 0).1 =
        (candidates F ext db).foldl (fun rows e => applyExt now e rows) [] := by
      rw [upsertLoop_fst F now _ _ _ hWFa, hall, hempty]
    have hWF1 := upsertLoop_WF F now (candidates F ext db) db.articles 0 hWFa
    obtain ⟨hfrom, hto⟩ := finishCycle_mem F now _ states' hWF1
    refine ⟨?_, ?_, ?_, ?_⟩
    · intro x
      have hids : x ∈ (SyncArticles F now ext db).db.articles.map (·.ExternalID) ↔
          x ∈ ((upsertLoop F now (candidates F ext db) db.articles 0).1).map (·.ExternalID) := by
        rw [hfin]
        constructor
        · intro hx
          obtain ⟨r, hr, rfl⟩ := List.mem_map.1 hx
          obtain ⟨r0, hr0, h | h⟩ := hfrom r hr
          · exact List.mem_map.2 ⟨r0, hr0, by rw [h]⟩
          · exact List.mem_map.2 ⟨r0, hr0, by rw [h]⟩
        · intro hx
          obtain ⟨r0, hr0, rfl⟩ := List.mem_map.1 hx
          obtain ⟨r, hr, h | h⟩ := hto r0 hr0
          · exact List.mem_map.2 ⟨r, hr, by rw [h]⟩
          · exact List.mem_map.2 ⟨r, hr, by rw [h]⟩
      rw [hids, hrows, foldl_applyExt_externalIDs]
      simp only [List.map_nil, List.not_mem_nil, false_or]
      constructor
      · rintro ⟨e, he, hex⟩
        rw [candidates_healthy F ext db hF.1] at he
        obtain ⟨h1, h2, h3⟩ := mem_queryPublished.1 he
        exact ⟨e, h1, hex, h2, h3⟩
      · rintro ⟨e, h1, hex, h2, h3⟩
        refine ⟨e, ?_, hex⟩
        rw [candidates_healthy F ext db hF.1]
        exact mem_queryPublished.2 ⟨h1, h2, h3⟩
    · intro r hr
      rw [hfin] at hr
      obtain ⟨r0, hr0, h⟩ := hfrom r hr
      have hst : r0.Status = statusPublished := by
        rw [hrows] at hr0
        refine foldl_applyExt_status now _ [] statusPublished (by simp) ?_ r0 hr0
        intro e he
        exact (mem_queryPublished.1 he).2.1
      rcases h with h | h
      · rw [h]
        exact hst
      · rw [h]
        exact hst
    · intro m hm
      have hm' : IsMaxUtime m (candidates F ext db) := by
        obtain ⟨⟨e, he, hem⟩, hle⟩ := hm
        exact ⟨⟨e, (hcand e).2 he, hem⟩, fun e' he' => hle e' ((hcand e').1 he')⟩
      exact IsMaxUtime_unique hmax hm'
    · intro h
      exact absurd (hfilter h) hc

/-- C8 on the scenario of the specification: watermark 0, published articles updated at 100
and 200, a draft updated at 150. -/
theorem C8_first_cycle_witness :
    Faults.healthy.storeOK ∧ emptyDB.articles = [] ∧ StatesWF emptyDB.states ∧
    0 ≤ watermark emptyDB ∧
    (SyncArticles Faults.healthy 5 twoPublishedOneDraft emptyDB).db =
      { articles :=
          [{ ID := 1, ExternalID := 1, AuthorID := 1, Title := "title", Content := "first",
             Status := 2, ExternalCtime := 1, ExternalUtime := 100, IsIndexed := true,
             CreatedAt := 5, UpdatedAt := 5 },
           { ID := 2, ExternalID := 2, AuthorID := 1, Title := "title", Content := "second",
             Status := 2, ExternalCtime := 1, ExternalUtime := 200, IsIndexed := true,
             CreatedAt := 5, UpdatedAt := 5 }]
        states :=
          [{ ID := 1, TableName := "published_articles", LastUtime := 200, UpdatedAt := 5 }] } ∧
    ((∀ x, x ∈ (SyncArticles Faults.healthy 5 twoPublishedOneDraft emptyDB).db.articles.map
          (·.ExternalID) ↔
      ∃ e ∈ twoPublishedOneDraft,
        e.ID = x ∧ e.Status = statusPublished ∧ e.Utime > watermark emptyDB) ∧
    (∀ r ∈ (SyncArticles Faults.healthy 5 twoPublishedOneDraft emptyDB).db.articles,
      r.Status = statusPublished) ∧
    (∀ m, IsMaxUtime m
        (twoPublishedOneDraft.filter
          (fun e => e.Status = statusPublished ∧ e.Utime > watermark emptyDB)) →
      watermark (SyncArticles Faults.healthy 5 twoPublishedOneDraft emptyDB).db = m) ∧
    (twoPublishedOneDraft.filter
        (fun e => e.Status = statusPublished ∧ e.Utime > watermark emptyDB) = [] →
      watermark (SyncArticles Faults.healthy 5 twoPublishedOneDraft emptyDB).db =
        watermark emptyDB)) :=
  ⟨healthy_storeOK, rfl, by decide, by decide, by decide,
    C8_first_cycle Faults.healthy 5 twoPublishedOneDraft emptyDB healthy_storeOK rfl
      (by decide) (by decide)⟩

/-! ## The upsert step, record by record -/

theorem applyExt_mirrors (now : Nat) (e : PublishedArticle) (rows : List SyncedArticle)
    (hWF : ArticlesWF rows) :
    ∃ r ∈ applyExt now e rows, Mirrors r e ∧ r.IsIndexed = false ∧
      ((∀ r0 ∈ rows, r0.ExternalID ≠ e.ID) → MirrorsAll r e) ∧
      (∀ r0 ∈ rows, r0.ExternalID = e.ID → r.ID = r0.ID) := by
  unfold applyExt
  by_cases hex : ∃ r ∈ rows, r.ExternalID = e.ID
  · rw [if_pos hex]
    obtain ⟨r0, hr0, hr0e⟩ := hex
    refine ⟨_, List.mem_map.2 ⟨r0, hr0, rfl⟩, ?_⟩
    rw [if_pos hr0e]
    refine ⟨⟨hr0e, rfl, rfl, rfl, rfl⟩, rfl, ?_, ?_⟩
    · intro habs
      exact absurd hr0e (habs r0 hr0)
    · intro r1 hr1 hr1e
      have : r1 = r0 := List.inj_on_of_nodup_map hWF.2.2 hr1 hr0 (by rw [hr1e, hr0e])
      rw [this]
  · rw [if_neg hex]
    refine ⟨_, List.mem_append_right _ (List.mem_singleton_self _), ?_⟩
    refine ⟨⟨rfl, rfl, rfl, rfl, rfl⟩, rfl, fun _ => ⟨⟨rfl, rfl, rfl, rfl, rfl⟩, rfl, rfl⟩, ?_⟩
    intro r1 hr1 hr1e
    exact absurd ⟨r1, hr1, hr1e⟩ hex

theorem applyExt_other (now : Nat) (e : PublishedArticle) (rows : List SyncedArticle) (r : SyncedArticle)
    (hne : r.ExternalID ≠ e.ID) : r ∈ applyExt now e rows ↔ r ∈ rows := by
  unfold applyExt
  by_cases hex : ∃ r ∈ rows, r.ExternalID = e.ID
  · rw [if_pos hex, List.mem_map]
    constructor
    · rintro ⟨r0, hr0, h⟩
      by_cases h0 : r0.ExternalID = e.ID
      · rw [if_pos h0] at h
        exact absurd (by rw [← h]; exact h0) hne
      · rw [if_neg h0] at h
        rw [← h]
        exact hr0
    · intro hr
      exact ⟨r, hr, if_neg hne⟩
  · rw [if_neg hex, List.mem_append, List.mem_singleton]
    constructor
    · rintro (h | h)
      · exact h
      · exact absurd (by rw [h]) hne
    · exact Or.inl

theorem upsertLoop_keeps (F : Faults) (now : Nat) (cs : List PublishedArticle) (rows : List SyncedArticle)
    (m : Int) (r : SyncedArticle) (hWF : ArticlesWF rows) (hr : r ∈ rows)
    (hcs : ∀ c ∈ cs, c.ID ≠ r.ExternalID) : r ∈ (upsertLoop F now cs rows m).1 := by
  induction cs generalizing rows m with
  | nil => exact hr
  | cons c cs ih =>
    unfold upsertLoop
    cases h : upsertArticle F now rows c with
    | none => exact ih rows m hWF hr (fun c' hc' => hcs c' (List.mem_cons_of_mem _ hc'))
    | some rows' =>
      have heq := upsertArticle_eq F now rows rows' c hWF h
      refine ih rows' _ (upsertArticle_WF F now rows rows' c hWF h) ?_
        (fun c' hc' => hcs c' (List.mem_cons_of_mem _ hc'))
      rw [heq]
      exact (applyExt_other now c rows r (fun h' => hcs c (List.mem_cons_self _ _) h'.symm)).2 hr

/-- After the upsert loop over candidates with distinct ids, every candidate whose upsert
succeeded has its row in the replica, pending. -/
theorem upsertLoop_mirrors (F : Faults) (now : Nat) (e : PublishedArticle) (cands : List PublishedArticle)
    (rows : List SyncedArticle) (m : Int) (hWF : ArticlesWF rows)
    (hnd : (cands.map (·.ID)).Nodup) (he : e ∈ upserted F now cands rows) :
    ∃ r ∈ (upsertLoop F now cands rows m).1, Mirrors r e ∧ r.IsIndexed = false ∧
      ((∀ r0 ∈ rows, r0.ExternalID ≠ e.ID) → MirrorsAll r e) ∧
      (∀ r0 ∈ rows, r0.ExternalID = e.ID → r.ID = r0.ID) := by
  induction cands generalizing rows m with
  | nil => simp [upserted] at he
  | cons c cs ih =>
    rw [List.map_cons, List.nodup_cons] at hnd
    obtain ⟨hcfresh, hnd⟩ := hnd
    unfold upserted at he
    unfold upsertLoop
    cases h : upsertArticle F now rows c with
    | none =>
      simp only [h] at he
      exact ih rows m hWF hnd he
    | some rows' =>
      simp only [h] at he
      have heq := upsertArticle_eq F now rows rows' c hWF h
      have hWF' := upsertArticle_WF F now rows rows' c hWF h
      simp only []
      rcases List.mem_cons.1 he with rfl | he'
      · obtain ⟨r, hr, hmir, hidx, habs, hpre⟩ := applyExt_mirrors now e rows hWF
        rw [← heq] at hr
        refine ⟨r, upsertLoop_keeps F now cs rows' _ r hWF' hr ?_, hmir, hidx, habs, hpre⟩
        intro c' hc' hcid
        exact hcfresh (List.mem_map.2 ⟨c', hc', by rw [hcid, hmir.1]⟩)
      · have hecs : e ∈ cs := (upserted_sublist F now cs rows').subset he'
        have hne : e.ID ≠ c.ID := by
          intro hid
          exact hcfresh (List.mem_map.2 ⟨e, hecs, hid⟩)
        obtain ⟨r, hr, hmir, hidx, habs, hpre⟩ := ih rows' _ hWF' hnd he'
        refine ⟨r, hr, hmir, hidx, ?_, ?_⟩
        · intro hno
          apply habs
          intro r0 hr0 hr0e
          rw [heq] at hr0
          exact hno r0 ((applyExt_other now c rows r0 (by rw [hr0e]; exact hne)).1 hr0) hr0e
        · intro r0 hr0 hr0e
          apply hpre r0 _ hr0e
          rw [heq]
          exact (applyExt_other now c rows r0 (by rw [hr0e]; exact hne)).2 hr0

theorem candidates_nodup (F : Faults) (ext : List PublishedArticle) (db : DB)
    (hids : (ext.map (·.ID)).Nodup) : ((candidates F ext db).map (·.ID)).Nodup := by
  unfold candidates queryPublished
  rw [((List.perm_insertionSort _ _).map _).nodup_iff]
  exact hids.sublist ((List.filter_sublist _).map _)

/-- C4 as stated fails: after one cycle in which nothing fails, the record of external id 7 is
there with the source's fields, but its `IsIndexed` is true, whether it was created by the
cycle or existed before with another content. -/
theorem C4_counterexample :
    candidates Faults.healthy onlySeven emptyDB = [mkPublished 7 "seven" 100] ∧
    (SyncArticles Faults.healthy 5 onlySeven emptyDB).db.articles =
      [{ ID := 1, ExternalID := 7, AuthorID := 1, Title := "title", Content := "seven",
         Status := 2, ExternalCtime := 1, ExternalUtime := 100, IsIndexed := true,
         CreatedAt := 5, UpdatedAt := 5 }] ∧
    (¬ ∃ r ∈ (SyncArticles Faults.healthy 5 onlySeven emptyDB).db.articles,
        r.ExternalID = 7 ∧ r.IsIndexed = false) ∧
    candidates Faults.healthy onlySeven staleSevenDB = [mkPublished 7 "seven" 100] ∧
    (SyncArticles Faults.healthy 5 onlySeven staleSevenDB).db.articles =
      [{ ID := 1, ExternalID := 7, AuthorID := 1, Title := "title", Content := "seven",
         Status := 2, ExternalCtime := 1, ExternalUtime := 100, IsIndexed := true,
         CreatedAt := 3, UpdatedAt := 5 }] ∧
    (¬ ∃ r ∈ (SyncArticles Faults.healthy 5 onlySeven staleSevenDB).db.articles,
        r.ExternalID = 7 ∧ r.IsIndexed = false) := by
  decide

/-- C4 (amended): let the tables respect their keys and the external ids be distinct, and let
`e` be a record returned by the cycle's query whose upsert succeeded.  Right after the upsert
step the replica holds a record with the external id, title, content, status and external
updated-at of `e` and with `IsIndexed = false`, also when it was true before; if no replica
record had this external id, its author id and external created-at are those of `e` too,
otherwise the record keeps its primary key.  At the end of the cycle the replica still holds
such a record, and its `IsIndexed` is true when neither the store nor the backend fails. -/
theorem C4_upsert (F : Faults) (now : Nat) (ext : List PublishedArticle) (db : DB)
    (e : PublishedArticle) (hWF : db.WF) (hids : (ext.map (·.ID)).Nodup)
    (hq : F.queryExternal = false)
    (he : e ∈ upserted F now (candidates F ext db) db.articles) :
    (∃ r ∈ (upsertLoop F now (candidates F ext db) db.articles 0).1,
      Mirrors r e ∧ r.IsIndexed = false ∧
      ((∀ r0 ∈ db.articles, r0.ExternalID ≠ e.ID) → MirrorsAll r e) ∧
      (∀ r0 ∈ db.articles, r0.ExternalID = e.ID → r.ID = r0.ID)) ∧
    (∃ r ∈ (SyncArticles F now ext db).db.articles,
      Mirrors r e ∧
      ((∀ r0 ∈ db.articles, r0.ExternalID ≠ e.ID) → MirrorsAll r e) ∧
      (∀ r0 ∈ db.articles, r0.ExternalID = e.ID → r.ID = r0.ID) ∧
      (F.storeOK → F.backendOK → r.IsIndexed = true)) := by
  have hc : candidates F ext db ≠ [] := by
    intro h
    rw [h] at he
    simp [upserted] at he
  obtain ⟨r, hr, hmir, hidx, habs, hpre⟩ :=
    upsertLoop_mirrors F now e (candidates F ext db) db.articles 0 hWF.1
      (candidates_nodup F ext db hids) he
  refine ⟨⟨r, hr, hmir, hidx, habs, hpre⟩, ?_⟩
  have hWF1 := upsertLoop_WF F now (candidates F ext db) db.articles 0 hWF.1
  rcases SyncArticles_candidates F now ext db hq hc with ⟨states', hfin⟩ | hfail
  · obtain ⟨r', hr', hrr'⟩ := (finishCycle_mem F now _ states' hWF1).2 r hr
    rw [hfin]
    refine ⟨r', hr', ?_, ?_, ?_, ?_⟩
    · rcases hrr' with h | h <;> rw [h] <;> exact hmir
    · intro hno
      rcases hrr' with h | h <;> rw [h] <;> exact habs hno
    · intro r0 hr0 hr0e
      rcases hrr' with h | h <;> rw [h] <;> exact hpre r0 hr0 hr0e
    · intro hF hB
      exact finishCycle_all_indexed F now _ states' hWF1 hF.2.2.2.2.2.2.1
        (fun a => ⟨hB.1 a, hB.2 a, hF.2.2.2.2.2.2.2 a⟩) r' hr'
  · rw [hfail]
    refine ⟨r, hr, hmir, habs, hpre, ?_⟩
    intro hF _
    obtain ⟨states', hfin⟩ := SyncArticles_storeOK F now ext db hF hWF.2 hc
    rw [hfin] at hfail
    have := congrArg CycleResult.err hfail
    cases this

/-- C4 (amended) on a replica that holds article 7 with an older content, indexed: with a
vector backend that is down the record ends the cycle with the new content and pending; with a
healthy backend it ends the cycle indexed. -/
theorem C4_upsert_witness :
    staleSevenDB.WF ∧ (onlySeven.map (·.ID)).Nodup ∧ backendDown.queryExternal = false ∧
    mkPublished 7 "seven" 100 ∈
      upserted backendDown 5 (candidates backendDown onlySeven staleSevenDB)
        staleSevenDB.articles ∧
    (SyncArticles backendDown 5 onlySeven staleSevenDB).db.articles =
      [{ ID := 1, ExternalID := 7, AuthorID := 1, Title := "title", Content := "seven",
         Status := 2, ExternalCtime := 1, ExternalUtime := 100, IsIndexed := false,
         CreatedAt := 3, UpdatedAt := 5 }] ∧
    ((∃ r ∈ (upsertLoop backendDown 5 (candidates backendDown onlySeven staleSevenDB)
        staleSevenDB.articles 0).1,
      Mirrors r (mkPublished 7 "seven" 100) ∧ r.IsIndexed = false ∧
      ((∀ r0 ∈ staleSevenDB.articles, r0.ExternalID ≠ (mkPublished 7 "seven" 100).ID) →
        MirrorsAll r (mkPublished 7 "seven" 100)) ∧
      (∀ r0 ∈ staleSevenDB.articles, r0.ExternalID = (mkPublished 7 "seven" 100).ID →
        r.ID = r0.ID)) ∧
    (∃ r ∈ (SyncArticles backendDown 5 onlySeven staleSevenDB).db.articles,
      Mirrors r (mkPublished 7 "seven" 100) ∧
      ((∀ r0 ∈ staleSevenDB.articles, r0.ExternalID ≠ (mkPublished 7 "seven" 100).ID) →
        MirrorsAll r (mkPublished 7 "seven" 100)) ∧
      (∀ r0 ∈ staleSevenDB.articles, r0.ExternalID = (mkPublished 7 "seven" 100).ID →
        r.ID = r0.ID) ∧
      (backendDown.storeOK → backendDown.backendOK → r.IsIndexed = true))) :=
  ⟨by decide, by decide, rfl, by decide, by decide,
    C4_upsert backendDown 5 onlySeven staleSevenDB (mkPublished 7 "seven" 100)
      (by decide) (by decide) rfl (by decide)⟩

/-! ## The hypotheses on the database are invariants of the cycle -/

theorem createState_WF (states states' : List SyncState) (s : SyncState)
    (hWF : StatesWF states) (h : createState states s = some states') : StatesWF states' := by
  obtain ⟨hnz, hids, hnames⟩ := hWF
  unfold createState at h
  by_cases h1 : ∃ r ∈ states, r.TableName = s.TableName
  · rw [if_pos h1] at h
    cases h
  · rw [if_neg h1] at h
    have hname : ∀ x : SyncState, x.TableName = s.TableName →
        (states.map (·.TableName) ++ [x.TableName]).Nodup := by
      intro x hx
      rw [List.nodup_append]
      refine ⟨hnames, by simp, ?_⟩
      intro t ht ht'
      simp only [List.mem_singleton] at ht'
      obtain ⟨r, hr, hrt⟩ := List.mem_map.1 ht
      exact h1 ⟨r, hr, by rw [hrt, ht', hx]⟩
    by_cases h2 : s.ID = 0
    · rw [if_pos h2] at h
      injection h with h
      subst h
      refine ⟨?_, ?_, ?_⟩
      · intro r hr
        rcases List.mem_append.1 hr with h | h
        · exact hnz r h
        · rw [List.mem_singleton.1 h]
          exact freshID_ne_zero _
      · rw [List.map_append, List.nodup_append]
        refine ⟨hids, by simp, ?_⟩
        intro i hi hi'
        simp only [List.map_cons, List.map_nil, List.mem_singleton] at hi'
        have := freshID_gt _ i hi
        omega
      · rw [List.map_append]
        exact hname _ rfl
    · rw [if_neg h2] at h
      by_cases h3 : ∃ r ∈ states, r.ID = s.ID
      · rw [if_pos h3] at h
        cases h
      · rw [if_neg h3] at h
        injection h with h
        subst h
        refine ⟨?_, ?_, ?_⟩
        · intro r hr
          rcases List.mem_append.1 hr with h | h
          · exact hnz r h
          · rw [List.mem_singleton.1 h]
            exact h2
        · rw [List.map_append, List.nodup_append]
          refine ⟨hids, by simp, ?_⟩
          intro i hi hi'
          simp only [List.map_cons, List.map_nil, List.mem_singleton] at hi'
          obtain ⟨r, hr, hri⟩ := List.mem_map.1 hi
          exact h3 ⟨r, hr, by rw [hri, hi']⟩
        · rw [List.map_append]
          exact hname _ rfl

theorem saveState_WF (states states' : List SyncState) (s : SyncState)
    (hWF : StatesWF states) (h : saveState states s = some states') : StatesWF states' := by
  unfold saveState at h
  by_cases h0 : s.ID = 0
  · rw [if_pos h0] at h
    exact createState_WF states states' s hWF h
  · rw [if_neg h0] at h
    by_cases h1 : ∃ r ∈ states, r.ID = s.ID
    · rw [if_pos h1] at h
      by_cases h2 : ∃ r ∈ states, r.ID ≠ s.ID ∧ r.TableName = s.TableName
      · rw [if_pos h2] at h
        cases h
      · rw [if_neg h2] at h
        injection h with h
        subst h
        obtain ⟨hnz, hids, hnames⟩ := hWF
        have hID : ∀ r : SyncState, (if r.ID = s.ID then s else r).ID = r.ID := by
          intro r
          split
          · rename_i h
            exact h.symm
          · rfl
        refine ⟨?_, ?_, ?_⟩
        · intro r hr
          obtain ⟨r0, hr0, rfl⟩ := List.mem_map.1 hr
          rw [hID]
          exact hnz r0 hr0
        · rw [List.map_map]
          have : ((fun r : SyncState => r.ID) ∘ fun r : SyncState =>
              if r.ID = s.ID then s else r) = fun r => r.ID := funext hID
          rw [this]
          exact hids
        · rw [List.map_map]
          apply List.Nodup.map_on _ (List.Nodup.of_map _ hids)
          intro x hx y hy hxy
          simp only [Function.comp] at hxy
          by_cases hxs : x.ID = s.ID
          · by_cases hys : y.ID = s.ID
            · exact List.inj_on_of_nodup_map hids hx hy (by rw [hxs, hys])
            · rw [if_pos hxs, if_neg hys] at hxy
              exact absurd ⟨y, hy, hys, hxy.symm⟩ h2
          · by_cases hys : y.ID = s.ID
            · rw [if_neg hxs, if_pos hys] at hxy
              exact absurd ⟨x, hx, hxs, hxy⟩ h2
            · rw [if_neg hxs, if_neg hys] at hxy
              exact List.inj_on_of_nodup_map hnames hx hy hxy
    · rw [if_neg h1] at h
      exact createState_WF states states' s hWF h

theorem finishCycle_WF (F : Faults) (now : Nat) (rows : List SyncedArticle) (states : List SyncState)
    (hr : ArticlesWF rows) (hs : StatesWF states) : (finishCycle F now rows states).db.WF := by
  refine ⟨?_, hs⟩
  simp only [finishCycle]
  cases h : IndexPendingArticles F now rows with
  | error _ => exact hr
  | ok rows' => exact IndexPendingArticles_WF F now rows rows' hr h

/-- Every cycle keeps the keys of both tables well-formed and the stored watermark
non-negative; the empty database satisfies both. -/
theorem SyncArticles_invariant (F : Faults) (now : Nat) (ext : List PublishedArticle) (db : DB)
    (hWF : db.WF) (hw : 0 ≤ watermark db) :
    (SyncArticles F now ext db).db.WF ∧ 0 ≤ watermark (SyncArticles F now ext db).db ∧
      emptyDB.WF ∧ 0 ≤ watermark emptyDB := by
  refine ⟨?_, le_trans hw (watermark_le_cycle F now ext db), by decide, by decide⟩
  by_cases hq : F.queryExternal = true
  · rw [SyncArticles_queryFault F now ext db hq]
    exact hWF
  · have hq : F.queryExternal = false := by simpa using hq
    by_cases hc : queryPublished ext (readSyncState F db.states).LastUtime = []
    · rw [SyncArticles_noCandidates F now ext db hq hc]
      exact hWF
    · have hWF1 := upsertLoop_WF F now (queryPublished ext (readSyncState F db.states).LastUtime)
        db.articles 0 hWF.1
      by_cases hm : (upsertLoop F now (queryPublished ext (readSyncState F db.states).LastUtime)
          db.articles 0).2 > 0
      · cases hs : (if F.saveState then none
            else saveState db.states
              { readSyncState F db.states with
                LastUtime := (upsertLoop F now
                  (queryPublished ext (readSyncState F db.states).LastUtime) db.articles 0).2
                UpdatedAt := now }) with
        | none =>
          rw [SyncArticles_saveFailed F now ext db hq hc hm hs]
          exact ⟨hWF1, hWF.2⟩
        | some states' =>
          rw [SyncArticles_saved F now ext db states' hq hc hm hs]
          by_cases hsv : F.saveState = true
          · simp [hsv] at hs
          · simp only [hsv, if_false, Bool.false_eq_true] at hs
            exact finishCycle_WF F now _ _ hWF1 (saveState_WF db.states states' _ hWF.2 hs)
      · rw [SyncArticles_noAdvance F now ext db hq hc hm]
        exact finishCycle_WF F now _ _ hWF1 hWF.2

end GopherAI
